import Mathlib

/-!
Verification of the heterogeneous neighbor-sampling engine and its backing
feature store, as specified for the graphlearn-for-pytorch repository.

The engine itself (CSR topology store, frontier expansion, dedup/local-index
assignment, negative sampler, feature store) is not part of the visible
sources; only its test driver `test/python/test_hetero_neighbor_sampler.py`
and an example consumer are.  All engine definitions below are therefore
modelled from the specification (sections 3, 4.2-4.5, 6 and 7 of spec.md),
with the output keying conventions fixed by the assertions of the visible
test driver.  Randomness (uniform fan-out choice, negative candidate draws)
is modelled by explicit oracle parameters: a fan-out `Chooser` constrained to
pick a without-replacement subsequence of the neighbor list, and negative
candidate streams indexed by seed position and attempt number.
-/

namespace GLT

/-- Total indexing of a list with a default, used as the semantic reading of
`tensor[i]` on the engine's per-type ID sequences. -/
def nthD {α : Type} : List α → Nat → α → α
  | [], _, d => d
  | a :: _, 0, _ => a
  | _ :: l, i + 1, d => nthD l i d

/-- Index of the first occurrence of `x` in `l` (equals `l.length` when
absent): the engine's GlobalID-to-LocalIndex lookup inside one request's
dedup space. -/
def idxOf : List Nat → Nat → Nat
  | [], _ => 0
  | a :: l, x => if a = x then 0 else idxOf l x + 1

/-- List extension: `l'` extends `l` by appending at the end.  A sampling
request's per-type ID sequences only ever grow this way, which is what keeps
already-assigned LocalIndex values stable. -/
def ListExt {α : Type} (l l' : List α) : Prop := ∃ t, l' = l ++ t

/-- A NodeType tag ('user', 'item', ...). -/
abbrev NodeType := String

/-- An EdgeType triple (source NodeType, relation name, destination NodeType),
e.g. ('user', 'u2i', 'item'). -/
abbrev EdgeType := String × String × String

/-- Modelled from the spec: the CSR Topology of one EdgeType (spec section 3),
the missing `glt.data.CSRTopo` / `glt.data.Graph` backing store.
`row_ptr[num_src_nodes+1]` plus parallel `col_indices[]` (destination
GlobalIDs) and `edge_ids[]` (edge GlobalIDs aligned with `col_indices`). -/
structure CSR where
  row_ptr : List Nat
  col_indices : List Nat
  edge_ids : List Nat

/-- `col_indices[row_ptr[i] : row_ptr[i+1]]` zipped with the aligned edge IDs:
node `i`'s out-neighbor list `(dst GlobalID, edge GlobalID)` under this
EdgeType (spec section 4.1 contract `neighbors`). -/
def CSR.neighbors (g : CSR) (i : Nat) : List (Nat × Nat) :=
  (((g.col_indices.zip g.edge_ids).drop (nthD g.row_ptr i 0)).take
    (nthD g.row_ptr (i + 1) 0 - nthD g.row_ptr i 0))

/-- `degree(i) = row_ptr[i+1] - row_ptr[i]` (spec section 3). -/
def CSR.degree (g : CSR) (i : Nat) : Nat :=
  nthD g.row_ptr (i + 1) 0 - nthD g.row_ptr i 0

/-- The edge-presence relation of the CSR store: edge with GlobalID `e` goes
from source `s` to destination `d`. -/
def CSR.hasEdge (g : CSR) (s d e : Nat) : Prop := (d, e) ∈ g.neighbors s

instance (g : CSR) (s d e : Nat) : Decidable (g.hasEdge s d e) :=
  inferInstanceAs (Decidable ((d, e) ∈ g.neighbors s))

/-- Structural well-formedness of a CSR block: edge IDs aligned with
destinations, monotone row pointers staying within `col_indices`. -/
def CSR.wfb (g : CSR) : Bool :=
  decide (g.edge_ids.length = g.col_indices.length) &&
  (List.range g.row_ptr.length).all (fun i =>
    decide (nthD g.row_ptr i 0 ≤ g.col_indices.length) &&
    (!(decide (i + 1 < g.row_ptr.length)) ||
      decide (nthD g.row_ptr i 0 ≤ nthD g.row_ptr (i + 1) 0)))

/-- Modelled from the spec: the heterogeneous graph dictionary passed to the
(missing) `glt.sampler.NeighborSampler` — a mapping from EdgeType to its CSR
topology store. -/
abbrev HeteroGraph := List (EdgeType × CSR)

/-- Dictionary lookup of the CSR store of one EdgeType (empty store when the
EdgeType is absent). -/
def lookupCSR (graph : HeteroGraph) (et : EdgeType) : CSR :=
  match graph.find? (fun p => p.1 == et) with
  | some p => p.2
  | none => ⟨[], [], []⟩

/-- Modelled from the spec: the per-hop fan-out choice (spec section 4.3
step 2) — "sample `budget` neighbors uniformly without replacement".  The
random draw is abstracted as an oracle taking the neighbor list and the
budget. -/
def Chooser : Type := List (Nat × Nat) → Nat → List (Nat × Nat)

/-- A chooser is valid when it returns a without-replacement subsequence of
the neighbor list of length `min budget degree` — the envelope of every
uniform without-replacement draw. -/
def ValidChooser (ch : Chooser) : Prop :=
  ∀ l n, (ch l n).Sublist l ∧ (ch l n).length = min n l.length

/-- The deterministic chooser that keeps the first `budget` neighbors; one
concrete member of the valid-chooser envelope, used for witnesses. -/
def takeChooser : Chooser := fun l n => l.take n

/-- Modelled from the spec: the state of one sampling request (spec
section 4.3) — per-NodeType ordered GlobalID sequences (index = LocalIndex,
also serving as the visited set) and per-EdgeType accumulated
(row LocalIndex, col LocalIndex, edge GlobalID) triples. -/
structure SamplerState where
  nodeSeq : NodeType → List Nat
  edgesOut : EdgeType → List (Nat × Nat × Nat)

/-- The empty request state. -/
def initState : SamplerState := ⟨fun _ => [], fun _ => []⟩

/-- Claim-or-lookup into the dedup space of one NodeType: an already-visited
GlobalID reuses its LocalIndex, a new one is appended and assigned the next
unused LocalIndex (spec section 4.3 step 3).  Returns the new state, the
LocalIndex, and whether the ID was newly added. -/
def addNodeCore (s : SamplerState) (nt : NodeType) (id : Nat) :
    SamplerState × Nat × Bool :=
  let seq := s.nodeSeq nt
  if id ∈ seq then (s, idxOf seq id, false)
  else ({ s with nodeSeq := fun nt' => if nt' = nt then seq ++ [id] else s.nodeSeq nt' },
        seq.length, true)

/-- Growth order between request states: every per-type ID sequence of `s`
is an initial segment of the one of `s'`. -/
def Mono (s s' : SamplerState) : Prop :=
  ∀ nt, ListExt (s.nodeSeq nt) (s'.nodeSeq nt)

/-- The output key of a traversed EdgeType (fixed by the visible test driver):
a homogeneous relation is recorded under its own key, a heterogeneous one
under the reversed key with a `rev_`-prefixed relation name — e.g. traversals
of ('user','u2i','item') are recorded under ('item','rev_u2i','user'). -/
def outKey (et : EdgeType) : EdgeType :=
  if et.1 = et.2.2 then et else (et.2.2, "rev_" ++ et.2.1, et.1)

/-- Append one (row, col, edge) triple under output key `k`. -/
def pushEdge (s : SamplerState) (k : EdgeType) (t : Nat × Nat × Nat) : SamplerState :=
  { s with edgesOut := fun k' => if k' = k then s.edgesOut k' ++ [t] else s.edgesOut k' }

/-- Record one traversed edge of EdgeType `et` from the frontier node whose
LocalIndex is `srcIdx`: the destination GlobalID `de.1` is claimed-or-looked-up
in its NodeType's dedup space, the triple (dst LocalIndex as row, src
LocalIndex as col, edge GlobalID) is recorded under `outKey et`, and a newly
seen destination joins the next frontier (spec section 4.3 steps 3-5). -/
def recordOne (et : EdgeType) (srcIdx : Nat)
    (acc : SamplerState × List (NodeType × Nat)) (de : Nat × Nat) :
    SamplerState × List (NodeType × Nat) :=
  let r := addNodeCore acc.1 et.2.2 de.1
  (pushEdge r.1 (outKey et) (r.2.1, srcIdx, de.2),
   if r.2.2 then acc.2 ++ [(et.2.2, de.1)] else acc.2)

/-- Expand one frontier node along one EdgeType: fetch its CSR neighbor list,
apply the fan-out chooser with this hop's budget, and record every chosen
edge (spec section 4.3 steps 1-2). -/
def expandNodeEdge (ch : Chooser) (budget : Nat) (et : EdgeType) (g : CSR)
    (src : Nat) (acc : SamplerState × List (NodeType × Nat)) :
    SamplerState × List (NodeType × Nat) :=
  (ch (g.neighbors src) budget).foldl
    (recordOne et (idxOf (acc.1.nodeSeq et.1) src)) acc

/-- Expand one frontier node along every EdgeType of the graph whose source
NodeType matches the node's type. -/
def expandNodeAll (ch : Chooser) (budget : Nat) (graph : HeteroGraph)
    (p : NodeType × Nat) (acc : SamplerState × List (NodeType × Nat)) :
    SamplerState × List (NodeType × Nat) :=
  graph.foldl
    (fun acc2 pg => if pg.1.1 = p.1 then expandNodeEdge ch budget pg.1 pg.2 p.2 acc2
                    else acc2) acc

/-- One hop of the frontier engine: expand every frontier node, collecting the
newly added destinations as the next frontier (spec section 4.3). -/
def runHop (ch : Chooser) (graph : HeteroGraph) (budget : Nat)
    (f : List (NodeType × Nat)) (s : SamplerState) :
    SamplerState × List (NodeType × Nat) :=
  f.foldl (fun acc p => expandNodeAll ch budget graph p acc) (s, [])

/-- Run all hops of `num_neighbors`, threading the frontier (spec section 4.3
terminal state: after `len(num_neighbors)` hops). -/
def runHops (ch : Chooser) (graph : HeteroGraph) :
    List Nat → List (NodeType × Nat) → SamplerState → SamplerState
  | [], _, s => s
  | b :: bs, f, s =>
      let r := runHop ch graph b f s
      runHops ch graph bs r.2 r.1

/-- Fold node-based seed GlobalIDs into the dedup space, collecting the
initial frontier (spec section 4.3 initial state). -/
def addSeedNodes (nt : NodeType) :
    List Nat → SamplerState → List (NodeType × Nat) →
    SamplerState × List (NodeType × Nat)
  | [], s, nf => (s, nf)
  | id :: rest, s, nf =>
      let r := addNodeCore s nt id
      addSeedNodes nt rest r.1 (if r.2.2 then nf ++ [(nt, id)] else nf)

/-- Modelled from the spec: the missing
`glt.sampler.NeighborSampler.sample_from_nodes` — seed the dedup space with
the node-based SamplerInput, then run the per-hop frontier expansion. -/
def sample_from_nodes (ch : Chooser) (graph : HeteroGraph) (num_neighbors : List Nat)
    (nt : NodeType) (seeds : List Nat) : SamplerState :=
  let sp := addSeedNodes nt seeds initState []
  runHops ch graph num_neighbors sp.2 sp.1

/-- Dedup invariant of a request state: no GlobalID occurs twice in any
NodeType's ID sequence. -/
def NodupInv (s : SamplerState) : Prop := ∀ nt, (s.nodeSeq nt).Nodup

/-- A recorded triple is good for graph `graph` in state `s`: it comes from
some EdgeType of the graph, is stored under that EdgeType's output key, its
row/col LocalIndex values are in range for the destination/source NodeType
sequences, and mapping them back through those sequences yields an edge
present in the source CSR topology. -/
def EdgeOK (graph : HeteroGraph) (s : SamplerState) (k : EdgeType)
    (t : Nat × Nat × Nat) : Prop :=
  ∃ p ∈ graph, k = outKey p.1 ∧
    t.1 < (s.nodeSeq p.1.2.2).length ∧ t.2.1 < (s.nodeSeq p.1.1).length ∧
    p.2.hasEdge (nthD (s.nodeSeq p.1.1) t.2.1 0) (nthD (s.nodeSeq p.1.2.2) t.1 0) t.2.2

/-- Every recorded triple of every output key is good. -/
def EdgesInv (graph : HeteroGraph) (s : SamplerState) : Prop :=
  ∀ k t, t ∈ s.edgesOut k → EdgeOK graph s k t

/-- The full request-state invariant. -/
def StateWF (graph : HeteroGraph) (s : SamplerState) : Prop :=
  NodupInv s ∧ EdgesInv graph s

/-- Every frontier entry is already registered in its NodeType's dedup
space (frontier is a subset of visited, spec section 4.3). -/
def FrOK (s : SamplerState) (f : List (NodeType × Nat)) : Prop :=
  ∀ p ∈ f, p.2 ∈ s.nodeSeq p.1

/-- Fold edge-based seed (row GlobalID, col GlobalID) pairs into the dedup
space (rows into the source NodeType, cols into the destination NodeType of
the seed EdgeType), collecting the initial frontier and the per-seed
(row LocalIndex, col LocalIndex) pairs in input order (spec section 4.3:
seed pairs are merged into the same dedup/index space as traversal output). -/
def addSeedPairs (et : EdgeType) :
    List (Nat × Nat) → SamplerState → List (NodeType × Nat) →
    SamplerState × List (NodeType × Nat) × List (Nat × Nat)
  | [], s, nf => (s, nf, [])
  | rc :: rest, s, nf =>
      let r1 := addNodeCore s et.1 rc.1
      let nf1 := if r1.2.2 then nf ++ [(et.1, rc.1)] else nf
      let r2 := addNodeCore r1.1 et.2.2 rc.2
      let nf2 := if r2.2.2 then nf1 ++ [(et.2.2, rc.2)] else nf1
      let rest' := addSeedPairs et rest r2.1 nf2
      (rest'.1, rest'.2.1, (r1.2.1, r2.2.1) :: rest'.2.2)

/-- Decidable true-neighbor relation of one CSR block: `c` is among the
destination GlobalIDs of `s`'s out-neighbor list. -/
def isTrueNeighbor (g : CSR) (s c : Nat) : Bool :=
  ((g.neighbors s).map Prod.fst).contains c

/-- Modelled from the spec: bounded rejection sampling of one negative
destination for anchor `src` (spec section 4.4): scan the drawn candidate
stream and keep the first non-neighbor; if retries exhaust, report the best
available candidate (the last draw) rather than looping forever (spec
section 7, `NegativeSamplingExhausted`). -/
def pickNeg (g : CSR) (src : Nat) (cands : List Nat) : Nat :=
  match cands.find? (fun c => !(isTrueNeighbor g src c)) with
  | some c => c
  | none => cands.getLastD 0

/-- Modelled from the spec: binary-mode negative generation (spec
section 4.4) — for the `i`-th positive pair (anchor row GlobalID, row
LocalIndex), draw `bound` candidates from the oracle `negCh i`, rejection-pick
a negative destination, fold it into the dedup space of the destination
NodeType `dt`, and emit the (row LocalIndex, negative col LocalIndex) pair. -/
def binNegLoop (g : CSR) (negCh : Nat → Nat → Nat) (bound : Nat) (dt : NodeType) :
    Nat → List (Nat × Nat) → SamplerState → SamplerState × List (Nat × Nat)
  | _, [], s => (s, [])
  | i, p :: rest, s =>
      let cand := pickNeg g p.1 ((List.range bound).map (negCh i))
      let r := addNodeCore s dt cand
      let rest' := binNegLoop g negCh bound dt (i + 1) rest r.1
      (rest'.1, (p.2, r.2.1) :: rest'.2)

/-- Triplet-mode negatives of one anchor: `amount` rejection-picked negative
destinations, each folded into the dedup space of `dt`; the oracle argument is
the attempt-indexed candidate stream of one (seed, negative-slot) pair. -/
def triNegOne (g : CSR) (oracle : Nat → Nat → Nat) (bound : Nat) (dt : NodeType)
    (src : Nat) : Nat → Nat → SamplerState → SamplerState × List Nat
  | _, 0, s => (s, [])
  | j, m + 1, s =>
      let cand := pickNeg g src ((List.range bound).map (oracle j))
      let r := addNodeCore s dt cand
      let rest' := triNegOne g oracle bound dt src (j + 1) m r.1
      (rest'.1, r.2.1 :: rest'.2)

/-- Modelled from the spec: triplet-mode negative generation (spec
section 4.4) — `amount` negatives per positive pair, all folded into the same
dedup space. -/
def triNegLoop (g : CSR) (negCh : Nat → Nat → Nat → Nat) (bound amount : Nat)
    (dt : NodeType) :
    Nat → List Nat → SamplerState → SamplerState × List (List Nat)
  | _, [], s => (s, [])
  | i, src :: rest, s =>
      let one := triNegOne g (negCh i) bound dt src 0 amount s
      let rest' := triNegLoop g negCh bound amount dt (i + 1) rest one.1
      (rest'.1, one.2 :: rest'.2)

/-- The task-specific metadata mapping of a SamplingOutput (spec sections 3
and 6): binary edge requests fill `edge_label_index`/`edge_label`, triplet
edge requests fill `src_index`/`dst_pos_index`/`dst_neg_index`.  Labels 1.0
and 0.0 of the float tensor are modelled as 1 and 0. -/
structure SampleMeta where
  edge_label_index : List (Nat × Nat)
  edge_label : List Nat
  src_index : List Nat
  dst_pos_index : List Nat
  dst_neg_index : List (List Nat)

/-- The empty metadata mapping (node-based requests carry none). -/
def emptyMeta : SampleMeta := ⟨[], [], [], [], []⟩

/-- Modelled from the spec: the missing
`glt.sampler.NeighborSampler.sample_from_edges` with binary NegativeSampling —
seed the dedup space with the (row, col) endpoint pairs, run the hop
expansion from the union frontier, synthesize one negative per positive, and
assemble `edge_label_index` (positive columns then negative columns) and
`edge_label` (1.0 for each positive, 0.0 for each negative). -/
def sample_from_edges_binary (ch : Chooser) (negCh : Nat → Nat → Nat)
    (bound : Nat) (graph : HeteroGraph) (num_neighbors : List Nat)
    (et : EdgeType) (rows cols : List Nat) : SamplerState × SampleMeta :=
  let sp := addSeedPairs et (rows.zip cols) initState []
  let s1 := runHops ch graph num_neighbors sp.2.1 sp.1
  let g := lookupCSR graph et
  let bn := binNegLoop g negCh bound et.2.2 0
    (rows.zip (sp.2.2.map Prod.fst)) s1
  (bn.1, { emptyMeta with
      edge_label_index := sp.2.2 ++ bn.2,
      edge_label := List.replicate rows.length 1 ++ List.replicate rows.length 0 })

/-- Modelled from the spec: the missing
`glt.sampler.NeighborSampler.sample_from_edges` with triplet NegativeSampling —
seed, expand, then `amount` negatives per positive; `src_index` and
`dst_pos_index` are the seed endpoints' LocalIndex values in input order and
`dst_neg_index` the P × amount LocalIndex matrix. -/
def sample_from_edges_triplet (ch : Chooser) (negCh : Nat → Nat → Nat → Nat)
    (bound : Nat) (graph : HeteroGraph) (num_neighbors : List Nat)
    (et : EdgeType) (rows cols : List Nat) (amount : Nat) :
    SamplerState × SampleMeta :=
  let sp := addSeedPairs et (rows.zip cols) initState []
  let s1 := runHops ch graph num_neighbors sp.2.1 sp.1
  let g := lookupCSR graph et
  let tn := triNegLoop g negCh bound amount et.2.2 0 rows s1
  (tn.1, { emptyMeta with
      src_index := sp.2.2.map Prod.fst,
      dst_pos_index := sp.2.2.map Prod.snd,
      dst_neg_index := tn.2 })

/-- Per-seed LocalIndex pairs `pos` aligned with the seed GlobalID pairs
`pairs`: position `i` of `pos` holds in-range LocalIndex values that map back
through the source/destination NodeType sequences to the `i`-th seed pair. -/
def PosAligned (s : SamplerState) (et : EdgeType)
    (pairs pos : List (Nat × Nat)) : Prop :=
  ∀ i, i < pairs.length →
    (nthD pos i (0, 0)).1 < (s.nodeSeq et.1).length ∧
    nthD (s.nodeSeq et.1) (nthD pos i (0, 0)).1 0 = (nthD pairs i (0, 0)).1 ∧
    (nthD pos i (0, 0)).2 < (s.nodeSeq et.2.2).length ∧
    nthD (s.nodeSeq et.2.2) (nthD pos i (0, 0)).2 0 = (nthD pairs i (0, 0)).2

/-- A SamplerInput (spec section 3): node-based seeds of one NodeType, or
edge-based seed pairs of one EdgeType with a binary or triplet
NegativeSampling configuration. -/
inductive SamplerInput where
  | node (nt : NodeType) (seeds : List Nat)
  | edgeBin (et : EdgeType) (rows cols : List Nat)
  | edgeTri (et : EdgeType) (rows cols : List Nat) (amount : Nat)

/-- The SamplingOutput node/edge part of any request kind, under fixed
fan-out and negative-candidate oracles. -/
def sampleAny (ch : Chooser) (negCh2 : Nat → Nat → Nat)
    (negCh3 : Nat → Nat → Nat → Nat) (bound : Nat) (graph : HeteroGraph)
    (num_neighbors : List Nat) : SamplerInput → SamplerState
  | .node nt seeds => sample_from_nodes ch graph num_neighbors nt seeds
  | .edgeBin et rows cols =>
      (sample_from_edges_binary ch negCh2 bound graph num_neighbors et rows cols).1
  | .edgeTri et rows cols amount =>
      (sample_from_edges_triplet ch negCh3 bound graph num_neighbors et rows cols amount).1

/-- The NegativeSampling mode descriptor (spec section 6). -/
inductive NegMode where
  | binary
  | triplet
deriving DecidableEq

/-- The NegativeSampling request descriptor `{mode, amount}` (spec
section 6; `amount` is an integer, meaningful in triplet mode only). -/
structure NegConf where
  mode : NegMode
  amount : Int

/-- The malformed-configuration errors of spec section 7. -/
inductive ConfigError where
  | emptyNumNeighbors
  | nonPositiveAmount
  | mismatchedSeeds
deriving DecidableEq

/-- Modelled from the spec: synchronous request validation of a node-based
request (spec section 7) — an empty `num_neighbors` list is rejected before
any traversal work. -/
def sample_from_nodes_checked (ch : Chooser) (graph : HeteroGraph)
    (num_neighbors : List Nat) (nt : NodeType) (seeds : List Nat) :
    Except ConfigError SamplerState :=
  if num_neighbors.isEmpty then Except.error ConfigError.emptyNumNeighbors
  else Except.ok (sample_from_nodes ch graph num_neighbors nt seeds)

/-- Modelled from the spec: synchronous request validation of an edge-based
request (spec section 7) — empty `num_neighbors`, seed arrays of mismatched
length, and `amount ≤ 0` in triplet mode are rejected before any traversal
work begins. -/
def sample_from_edges_checked (ch : Chooser) (negCh2 : Nat → Nat → Nat)
    (negCh3 : Nat → Nat → Nat → Nat) (bound : Nat) (graph : HeteroGraph)
    (num_neighbors : List Nat) (et : EdgeType) (rows cols : List Nat)
    (conf : NegConf) : Except ConfigError (SamplerState × SampleMeta) :=
  if num_neighbors.isEmpty then Except.error ConfigError.emptyNumNeighbors
  else if rows.length ≠ cols.length then Except.error ConfigError.mismatchedSeeds
  else match conf.mode with
    | NegMode.binary =>
        Except.ok (sample_from_edges_binary ch negCh2 bound graph num_neighbors et rows cols)
    | NegMode.triplet =>
        if conf.amount ≤ 0 then Except.error ConfigError.nonPositiveAmount
        else Except.ok (sample_from_edges_triplet ch negCh3 bound graph num_neighbors
          et rows cols conf.amount.toNat)

/-- Modelled from the spec: the missing `glt.data.Feature` split table (spec
sections 3 and 4.2) — a dense row table with an `id2idx` GlobalID-to-row
mapping, split at construction into a hot replicated head of `hotCount` rows
and a cold remainder. -/
structure Feature (α : Type) where
  rows : List α
  id2idx : Nat → Nat
  hotCount : Nat

/-- The hot (replicated, accelerator-resident) rows. -/
def Feature.hotRows {α : Type} (f : Feature α) : List α := f.rows.take f.hotCount

/-- The cold (on-demand) rows. -/
def Feature.coldRows {α : Type} (f : Feature α) : List α := f.rows.drop f.hotCount

/-- Resolve one GlobalID: hot replica first, cold partition otherwise (spec
section 4.2 resolution order). -/
def Feature.lookup1 {α : Type} (f : Feature α) (d : α) (id : Nat) : α :=
  let idx := f.id2idx id
  if idx < f.hotCount then nthD f.hotRows idx d
  else nthD f.coldRows (idx - f.hotCount) d

/-- The Feature Store lookup contract (spec section 4.2): a dense matrix
aligned with the ordered input `ids`. -/
def Feature.lookup {α : Type} (f : Feature α) (d : α) (ids : List Nat) : List α :=
  ids.map (f.lookup1 d)

/-- The reference ring dataset of the test driver's `setUp` (modelled as the
CSR the ingestion pipeline builds from its COO tensors): 40 nodes per type,
out-degree 2; `u2i` neighbors of user `v` are `(v+1)%40, (v+2)%40` with edge
IDs `2v, 2v+1`. -/
def u2i_csr : CSR :=
  ⟨(List.range 41).map (fun v => 2 * v),
   (List.range 40).flatMap (fun v => [(v + 1) % 40, (v + 2) % 40]),
   (List.range 40).flatMap (fun v => [2 * v, 2 * v + 1])⟩

/-- `i2i` neighbors of item `v` are `(v+2)%40, (v+3)%40` with edge IDs
`2v, 2v+1`. -/
def i2i_csr : CSR :=
  ⟨(List.range 41).map (fun v => 2 * v),
   (List.range 40).flatMap (fun v => [(v + 2) % 40, (v + 3) % 40]),
   (List.range 40).flatMap (fun v => [2 * v, 2 * v + 1])⟩

/-- The ('user','u2i','item') EdgeType of the reference dataset. -/
def u2i_etype : EdgeType := ("user", "u2i", "item")

/-- The ('item','i2i','item') EdgeType of the reference dataset. -/
def i2i_etype : EdgeType := ("item", "i2i", "item")

/-- The reversed ('item','rev_u2i','user') output key. -/
def rev_u2i_etype : EdgeType := ("item", "rev_u2i", "user")

/-- The heterogeneous graph dictionary of the test driver: forward `u2i` and
`i2i` only. -/
def test_graph : HeteroGraph := [(u2i_etype, u2i_csr), (i2i_etype, i2i_csr)]

/-- The user seeds of the node-based test request. -/
def user_seeds : List Nat := [1, 5, 9, 13, 17, 21, 25, 29]

/-- The node-based test request's SamplingOutput under the take-first
chooser: seeds {1,5,...,29} of type 'user' on the reference ring dataset
with `num_neighbors = [2, 1]`. -/
def node_out : SamplerState :=
  sample_from_nodes takeChooser test_graph [2, 1] "user" user_seeds

/-- A dense one-user/one-item graph on which binary rejection sampling must
exhaust: item 0 is user 0's only neighbor, so every candidate draw is a true
neighbor. -/
def cex_graph : HeteroGraph := [(u2i_etype, ⟨[0, 1], [0], [0]⟩)]

/-- The binary edge-based SamplingOutput on `cex_graph` for the single seed
pair (0, 0), with a candidate stream that only ever draws item 0. -/
def cex_out : SamplerState × SampleMeta :=
  sample_from_edges_binary takeChooser (fun _ _ => 0) 3 cex_graph [1] u2i_etype [0] [0]

theorem nthD_nil {α : Type} (i : Nat) (d : α) : nthD [] i d = d := rfl

theorem nthD_cons_zero {α : Type} (a : α) (l : List α) (d : α) :
    nthD (a :: l) 0 d = a := rfl

theorem nthD_cons_succ {α : Type} (a : α) (l : List α) (i : Nat) (d : α) :
    nthD (a :: l) (i + 1) d = nthD l i d := rfl

theorem nthD_ge_length {α : Type} :
    ∀ (l : List α) (i : Nat) (d : α), l.length ≤ i → nthD l i d = d
  | [], _, _, _ => rfl
  | _ :: _, 0, _, h => absurd h (by simp)
  | _ :: l, i + 1, d, h => nthD_ge_length l i d (by simpa using h)

theorem nthD_append_left {α : Type} :
    ∀ (l l' : List α) (i : Nat) (d : α), i < l.length →
      nthD (l ++ l') i d = nthD l i d
  | [], _, i, _, h => absurd h (by simp)
  | _ :: _, _, 0, _, _ => rfl
  | _ :: l, l', i + 1, d, h =>
      nthD_append_left l l' i d (Nat.lt_of_succ_lt_succ h)

theorem nthD_append_shift {α : Type} :
    ∀ (l l' : List α) (i : Nat) (d : α),
      nthD (l ++ l') (l.length + i) d = nthD l' i d
  | [], l', i, d => by simp [Nat.zero_add]
  | a :: l, l', i, d => by
      have h : (a :: l).length + i = (l.length + i) + 1 := by
        simp [List.length_cons]; omega
      rw [h, List.cons_append, nthD_cons_succ]
      exact nthD_append_shift l l' i d

theorem nthD_concat_self {α : Type} (l : List α) (a : α) (d : α) :
    nthD (l ++ [a]) l.length d = a := by
  have h := nthD_append_shift l [a] 0 d
  simpa using h

theorem nthD_mem {α : Type} :
    ∀ (l : List α) (i : Nat) (d : α), i < l.length → nthD l i d ∈ l
  | [], i, _, h => absurd h (by simp)
  | a :: _, 0, _, _ => List.mem_cons_self a _
  | _ :: l, i + 1, d, h =>
      List.mem_cons_of_mem _ (nthD_mem l i d (Nat.lt_of_succ_lt_succ h))

theorem nthD_map {α β : Type} (f : α → β) :
    ∀ (l : List α) (i : Nat) (d : α) (d' : β), i < l.length →
      nthD (l.map f) i d' = f (nthD l i d)
  | [], i, _, _, h => absurd h (by simp)
  | _ :: _, 0, _, _, _ => rfl
  | _ :: l, i + 1, d, d', h =>
      nthD_map f l i d d' (Nat.lt_of_succ_lt_succ h)

theorem nthD_zip {α β : Type} :
    ∀ (l₁ : List α) (l₂ : List β) (i : Nat) (d₁ : α) (d₂ : β),
      i < l₁.length → i < l₂.length →
      nthD (l₁.zip l₂) i (d₁, d₂) = (nthD l₁ i d₁, nthD l₂ i d₂)
  | [], _, i, _, _, h, _ => absurd h (by simp)
  | _ :: _, [], i, _, _, _, h => absurd h (by simp)
  | _ :: _, _ :: _, 0, _, _, _, _ => rfl
  | _ :: l₁, _ :: l₂, i + 1, d₁, d₂, h₁, h₂ =>
      nthD_zip l₁ l₂ i d₁ d₂ (Nat.lt_of_succ_lt_succ h₁) (Nat.lt_of_succ_lt_succ h₂)

theorem idxOf_lt_length : ∀ {l : List Nat} {x : Nat}, x ∈ l → idxOf l x < l.length := by
  intro l
  induction l with
  | nil => intro x h; cases h
  | cons a l ih =>
      intro x h
      by_cases hax : a = x
      · simp [idxOf, hax]
      · have hx : x ∈ l := by
          cases h with
          | head => exact absurd rfl hax
          | tail _ h' => exact h'
        simpa [idxOf, hax] using Nat.succ_lt_succ (ih hx)

theorem nthD_idxOf : ∀ {l : List Nat} {x : Nat}, x ∈ l → nthD l (idxOf l x) 0 = x := by
  intro l
  induction l with
  | nil => intro x h; cases h
  | cons a l ih =>
      intro x h
      by_cases hax : a = x
      · simp [idxOf, hax, nthD]
      · have hx : x ∈ l := by
          cases h with
          | head => exact absurd rfl hax
          | tail _ h' => exact h'
        simpa [idxOf, hax, nthD] using ih hx

theorem listExt_refl {α : Type} (l : List α) : ListExt l l := ⟨[], by simp⟩

theorem listExt_trans {α : Type} {l₁ l₂ l₃ : List α}
    (h₁ : ListExt l₁ l₂) (h₂ : ListExt l₂ l₃) : ListExt l₁ l₃ := by
  obtain ⟨t₁, rfl⟩ := h₁
  obtain ⟨t₂, rfl⟩ := h₂
  exact ⟨t₁ ++ t₂, by simp⟩

theorem ListExt.length_le {α : Type} {l l' : List α} (h : ListExt l l') :
    l.length ≤ l'.length := by
  obtain ⟨t, rfl⟩ := h
  simp

theorem ListExt.nthD_eq {α : Type} {l l' : List α} (h : ListExt l l')
    {i : Nat} (hi : i < l.length) (d : α) : nthD l' i d = nthD l i d := by
  obtain ⟨t, rfl⟩ := h
  exact nthD_append_left l t i d hi

theorem ListExt.mem {α : Type} {l l' : List α} (h : ListExt l l')
    {x : α} (hx : x ∈ l) : x ∈ l' := by
  obtain ⟨t, rfl⟩ := h
  exact List.mem_append_left t hx

theorem ListExt.append {α : Type} (l t : List α) : ListExt l (l ++ t) := ⟨t, rfl⟩

/-- Under a well-formed CSR block the neighbor list has exactly `degree i`
entries. -/
theorem CSR.length_neighbors_of_wfb (g : CSR) (hwf : g.wfb = true) (i : Nat) :
    (g.neighbors i).length = g.degree i := by
  have hparts := hwf
  unfold CSR.wfb at hparts
  rw [Bool.and_eq_true] at hparts
  obtain ⟨hlen, hall⟩ := hparts
  have hlen' : g.edge_ids.length = g.col_indices.length := of_decide_eq_true hlen
  have hall' := List.all_eq_true.mp hall
  have hzip : (g.col_indices.zip g.edge_ids).length = g.col_indices.length := by
    simp [List.length_zip, hlen']
  unfold CSR.neighbors CSR.degree
  rw [List.length_take, List.length_drop, hzip]
  by_cases hi1 : i + 1 < g.row_ptr.length
  · have hi : i < g.row_ptr.length := Nat.lt_of_succ_lt hi1
    have h1 := hall' (i + 1) (List.mem_range.mpr hi1)
    have h0 := hall' i (List.mem_range.mpr hi)
    rw [Bool.and_eq_true] at h1 h0
    have hbound : nthD g.row_ptr (i + 1) 0 ≤ g.col_indices.length :=
      of_decide_eq_true h1.1
    have hmono : nthD g.row_ptr i 0 ≤ nthD g.row_ptr (i + 1) 0 := by
      have := h0.2
      rw [Bool.or_eq_true] at this
      cases this with
      | inl h => exact absurd (of_decide_eq_true (by simpa using hi1)) (by
          simpa using h)
      | inr h => exact of_decide_eq_true h
    omega
  · have : nthD g.row_ptr (i + 1) 0 = 0 :=
      nthD_ge_length _ _ _ (Nat.le_of_not_lt hi1)
    rw [this]
    omega

theorem takeChooser_valid : ValidChooser takeChooser :=
  fun l n => ⟨List.take_sublist n l, List.length_take n l⟩

theorem mono_refl (s : SamplerState) : Mono s s := fun _ => listExt_refl _

theorem mono_trans {s₁ s₂ s₃ : SamplerState} (h₁ : Mono s₁ s₂) (h₂ : Mono s₂ s₃) :
    Mono s₁ s₃ := fun nt => listExt_trans (h₁ nt) (h₂ nt)

theorem addNodeCore_mono (s : SamplerState) (nt : NodeType) (id : Nat) :
    Mono s (addNodeCore s nt id).1 := by
  unfold addNodeCore
  by_cases h : id ∈ s.nodeSeq nt
  · simp only [h, if_pos]
    exact mono_refl s
  · simp only [h, if_neg, not_false_iff]
    intro nt'
    by_cases hnt : nt' = nt
    · subst hnt
      simpa using ListExt.append (s.nodeSeq nt') [id]
    · simpa [hnt] using listExt_refl (s.nodeSeq nt')

theorem addNodeCore_idx_lt (s : SamplerState) (nt : NodeType) (id : Nat) :
    (addNodeCore s nt id).2.1 < ((addNodeCore s nt id).1.nodeSeq nt).length := by
  unfold addNodeCore
  by_cases h : id ∈ s.nodeSeq nt
  · simpa [h] using idxOf_lt_length h
  · simp [h]

theorem addNodeCore_nthD (s : SamplerState) (nt : NodeType) (id : Nat) :
    nthD ((addNodeCore s nt id).1.nodeSeq nt) (addNodeCore s nt id).2.1 0 = id := by
  unfold addNodeCore
  by_cases h : id ∈ s.nodeSeq nt
  · simpa [h] using nthD_idxOf h
  · simpa [h] using nthD_concat_self (s.nodeSeq nt) id 0

theorem addNodeCore_mem (s : SamplerState) (nt : NodeType) (id : Nat) :
    id ∈ (addNodeCore s nt id).1.nodeSeq nt := by
  unfold addNodeCore
  by_cases h : id ∈ s.nodeSeq nt
  · simp only [h, if_pos]
  · simp [h]

theorem addNodeCore_nodup (s : SamplerState) (nt : NodeType) (id : Nat)
    (hnd : ∀ nt', (s.nodeSeq nt').Nodup) :
    ∀ nt', ((addNodeCore s nt id).1.nodeSeq nt').Nodup := by
  intro nt'
  unfold addNodeCore
  by_cases h : id ∈ s.nodeSeq nt
  · simpa [h] using hnd nt'
  · by_cases hnt : nt' = nt
    · subst hnt
      simp only [h, if_neg, not_false_iff, eq_self_iff_true, ite_true]
      rw [List.nodup_append]
      refine ⟨hnd nt', List.nodup_singleton id, ?_⟩
      intro x hx hx1
      have : x = id := by simpa using hx1
      subst this
      exact h hx
    · simpa [h, hnt] using hnd nt'

theorem addNodeCore_edges (s : SamplerState) (nt : NodeType) (id : Nat) :
    (addNodeCore s nt id).1.edgesOut = s.edgesOut := by
  unfold addNodeCore
  by_cases h : id ∈ s.nodeSeq nt
  · simp [h]
  · simp [h]

theorem edgeOK_mono {graph : HeteroGraph} {s s' : SamplerState} {k : EdgeType}
    {t : Nat × Nat × Nat} (hm : Mono s s') (h : EdgeOK graph s k t) :
    EdgeOK graph s' k t := by
  obtain ⟨p, hp, hk, h1, h2, h3⟩ := h
  refine ⟨p, hp, hk, Nat.lt_of_lt_of_le h1 (hm p.1.2.2).length_le,
    Nat.lt_of_lt_of_le h2 (hm p.1.1).length_le, ?_⟩
  rw [(hm p.1.1).nthD_eq h2, (hm p.1.2.2).nthD_eq h1]
  exact h3

theorem frOK_mono {s s' : SamplerState} {f : List (NodeType × Nat)}
    (hm : Mono s s') (h : FrOK s f) : FrOK s' f :=
  fun p hp => (hm p.1).mem (h p hp)

theorem initState_wf (graph : HeteroGraph) : StateWF graph initState := by
  constructor
  · intro nt
    simp [initState]
  · intro k t ht
    simp [initState] at ht

theorem pushEdge_nodeSeq (s : SamplerState) (k : EdgeType) (t : Nat × Nat × Nat) :
    (pushEdge s k t).nodeSeq = s.nodeSeq := rfl

theorem pushEdge_mem {s : SamplerState} {k k' : EdgeType} {t t' : Nat × Nat × Nat}
    (h : t' ∈ (pushEdge s k t).edgesOut k') :
    t' ∈ s.edgesOut k' ∨ (k' = k ∧ t' = t) := by
  unfold pushEdge at h
  by_cases hk : k' = k
  · simp only [hk, if_pos] at h
    rcases List.mem_append.mp h with h' | h'
    · exact Or.inl (hk ▸ h')
    · exact Or.inr ⟨hk, by simpa using h'⟩
  · simp only [hk, if_neg, not_false_iff] at h
    exact Or.inl h

theorem recordOne_fst (et : EdgeType) (srcIdx : Nat)
    (acc : SamplerState × List (NodeType × Nat)) (de : Nat × Nat) :
    (recordOne et srcIdx acc de).1 =
      pushEdge (addNodeCore acc.1 et.2.2 de.1).1 (outKey et)
        ((addNodeCore acc.1 et.2.2 de.1).2.1, srcIdx, de.2) := rfl

theorem recordOne_snd (et : EdgeType) (srcIdx : Nat)
    (acc : SamplerState × List (NodeType × Nat)) (de : Nat × Nat) :
    (recordOne et srcIdx acc de).2 =
      if (addNodeCore acc.1 et.2.2 de.1).2.2 then acc.2 ++ [(et.2.2, de.1)]
      else acc.2 := rfl

theorem recordOne_wf {graph : HeteroGraph} {et : EdgeType} {g : CSR}
    (hpg : (et, g) ∈ graph) {src srcIdx : Nat}
    {acc : SamplerState × List (NodeType × Nat)} {de : Nat × Nat}
    (hwf : StateWF graph acc.1) (hfr : FrOK acc.1 acc.2)
    (hsi : srcIdx < (acc.1.nodeSeq et.1).length)
    (hsg : nthD (acc.1.nodeSeq et.1) srcIdx 0 = src)
    (hde : de ∈ g.neighbors src) :
    StateWF graph (recordOne et srcIdx acc de).1 ∧
    FrOK (recordOne et srcIdx acc de).1 (recordOne et srcIdx acc de).2 ∧
    Mono acc.1 (recordOne et srcIdx acc de).1 := by
  have hmono : Mono acc.1 (recordOne et srcIdx acc de).1 :=
    addNodeCore_mono acc.1 et.2.2 de.1
  refine ⟨⟨?_, ?_⟩, ?_, hmono⟩
  · intro nt
    exact addNodeCore_nodup acc.1 et.2.2 de.1 hwf.1 nt
  · intro k t ht
    rcases pushEdge_mem ht with h | ⟨hk, htt⟩
    · rw [show (addNodeCore acc.1 et.2.2 de.1).1.edgesOut k = acc.1.edgesOut k from
        congrFun (addNodeCore_edges acc.1 et.2.2 de.1) k] at h
      exact edgeOK_mono hmono (hwf.2 k t h)
    · subst hk
      subst htt
      refine ⟨(et, g), hpg, rfl, ?_, ?_, ?_⟩
      · exact addNodeCore_idx_lt acc.1 et.2.2 de.1
      · exact Nat.lt_of_lt_of_le hsi (hmono et.1).length_le
      · show ((et, g).2).hasEdge _ _ _
        rw [show nthD ((recordOne et srcIdx acc de).1.nodeSeq et.1) srcIdx 0 = src from
          ((hmono et.1).nthD_eq hsi 0).trans hsg]
        rw [show nthD ((recordOne et srcIdx acc de).1.nodeSeq et.2.2)
              (addNodeCore acc.1 et.2.2 de.1).2.1 0 = de.1 from
          addNodeCore_nthD acc.1 et.2.2 de.1]
        show (de.1, de.2) ∈ g.neighbors src
        simpa using hde
  · intro p hp
    have hsplit : p ∈ acc.2 ∨ p = (et.2.2, de.1) := by
      rw [recordOne_snd] at hp
      by_cases hb : (addNodeCore acc.1 et.2.2 de.1).2.2
      · simp only [hb, if_pos] at hp
        rcases List.mem_append.mp hp with h | h
        · exact Or.inl h
        · exact Or.inr (by simpa using h)
      · rw [if_neg hb] at hp
        exact Or.inl hp
    rcases hsplit with h | h
    · exact (hmono p.1).mem (hfr p h)
    · subst h
      exact addNodeCore_mem acc.1 et.2.2 de.1

theorem foldRecord_wf {graph : HeteroGraph} {et : EdgeType} {g : CSR}
    (hpg : (et, g) ∈ graph) {src : Nat} :
    ∀ (l : List (Nat × Nat)) (srcIdx : Nat)
      (acc : SamplerState × List (NodeType × Nat)),
    StateWF graph acc.1 → FrOK acc.1 acc.2 →
    srcIdx < (acc.1.nodeSeq et.1).length →
    nthD (acc.1.nodeSeq et.1) srcIdx 0 = src →
    (∀ de ∈ l, de ∈ g.neighbors src) →
    StateWF graph (l.foldl (recordOne et srcIdx) acc).1 ∧
    FrOK (l.foldl (recordOne et srcIdx) acc).1 (l.foldl (recordOne et srcIdx) acc).2 ∧
    Mono acc.1 (l.foldl (recordOne et srcIdx) acc).1 := by
  intro l
  induction l with
  | nil =>
      intro srcIdx acc hwf hfr _ _ _
      exact ⟨hwf, hfr, mono_refl _⟩
  | cons de l ih =>
      intro srcIdx acc hwf hfr hsi hsg hin
      have hstep := recordOne_wf hpg hwf hfr hsi hsg (hin de (List.mem_cons_self de l))
      obtain ⟨hwf', hfr', hm'⟩ := hstep
      have hsi' : srcIdx < ((recordOne et srcIdx acc de).1.nodeSeq et.1).length :=
        Nat.lt_of_lt_of_le hsi (hm' et.1).length_le
      have hsg' : nthD ((recordOne et srcIdx acc de).1.nodeSeq et.1) srcIdx 0 = src :=
        ((hm' et.1).nthD_eq hsi 0).trans hsg
      have hrest := ih srcIdx (recordOne et srcIdx acc de) hwf' hfr' hsi' hsg'
        (fun de' hde' => hin de' (List.mem_cons_of_mem de hde'))
      exact ⟨hrest.1, hrest.2.1, mono_trans hm' hrest.2.2⟩

theorem expandNodeEdge_wf {graph : HeteroGraph} {et : EdgeType} {g : CSR}
    (hpg : (et, g) ∈ graph) (ch : Chooser) (budget : Nat)
    (hch : ValidChooser ch) {src : Nat}
    {acc : SamplerState × List (NodeType × Nat)}
    (hwf : StateWF graph acc.1) (hfr : FrOK acc.1 acc.2)
    (hsrc : src ∈ acc.1.nodeSeq et.1) :
    StateWF graph (expandNodeEdge ch budget et g src acc).1 ∧
    FrOK (expandNodeEdge ch budget et g src acc).1 (expandNodeEdge ch budget et g src acc).2 ∧
    Mono acc.1 (expandNodeEdge ch budget et g src acc).1 := by
  unfold expandNodeEdge
  exact foldRecord_wf hpg (ch (g.neighbors src) budget) _ acc hwf hfr
    (idxOf_lt_length hsrc) (nthD_idxOf hsrc)
    (fun de hde => (hch (g.neighbors src) budget).1.subset hde)

theorem foldGraph_wf {graph : HeteroGraph} (ch : Chooser) (budget : Nat)
    (hch : ValidChooser ch) (p : NodeType × Nat) :
    ∀ (l : List (EdgeType × CSR)), (∀ x ∈ l, x ∈ graph) →
    ∀ (acc : SamplerState × List (NodeType × Nat)),
    StateWF graph acc.1 → FrOK acc.1 acc.2 → p.2 ∈ acc.1.nodeSeq p.1 →
    StateWF graph (l.foldl
      (fun acc2 pg => if pg.1.1 = p.1 then expandNodeEdge ch budget pg.1 pg.2 p.2 acc2
                      else acc2) acc).1 ∧
    FrOK (l.foldl
      (fun acc2 pg => if pg.1.1 = p.1 then expandNodeEdge ch budget pg.1 pg.2 p.2 acc2
                      else acc2) acc).1
      (l.foldl
      (fun acc2 pg => if pg.1.1 = p.1 then expandNodeEdge ch budget pg.1 pg.2 p.2 acc2
                      else acc2) acc).2 ∧
    Mono acc.1 (l.foldl
      (fun acc2 pg => if pg.1.1 = p.1 then expandNodeEdge ch budget pg.1 pg.2 p.2 acc2
                      else acc2) acc).1 := by
  intro l
  induction l with
  | nil =>
      intro _ acc hwf hfr _
      exact ⟨hwf, hfr, mono_refl _⟩
  | cons pg l ih =>
      intro hl acc hwf hfr hpm
      simp only [List.foldl_cons]
      by_cases hmatch : pg.1.1 = p.1
      · simp only [hmatch, if_pos]
        have hpg' : (pg.1, pg.2) ∈ graph := hl pg (List.mem_cons_self pg l)
        have hsrc : p.2 ∈ acc.1.nodeSeq pg.1.1 := by rw [hmatch]; exact hpm
        have hstep := expandNodeEdge_wf hpg' ch budget hch hwf hfr hsrc
        obtain ⟨hwf', hfr', hm'⟩ := hstep
        have hrest := ih (fun x hx => hl x (List.mem_cons_of_mem pg hx))
          (expandNodeEdge ch budget pg.1 pg.2 p.2 acc) hwf' hfr'
          ((hm' p.1).mem hpm)
        exact ⟨hrest.1, hrest.2.1, mono_trans hm' hrest.2.2⟩
      · simp only [hmatch, if_neg, not_false_iff]
        exact ih (fun x hx => hl x (List.mem_cons_of_mem pg hx)) acc hwf hfr hpm

theorem expandNodeAll_wf {graph : HeteroGraph} (ch : Chooser) (budget : Nat)
    (hch : ValidChooser ch) (p : NodeType × Nat)
    {acc : SamplerState × List (NodeType × Nat)}
    (hwf : StateWF graph acc.1) (hfr : FrOK acc.1 acc.2)
    (hpm : p.2 ∈ acc.1.nodeSeq p.1) :
    StateWF graph (expandNodeAll ch budget graph p acc).1 ∧
    FrOK (expandNodeAll ch budget graph p acc).1 (expandNodeAll ch budget graph p acc).2 ∧
    Mono acc.1 (expandNodeAll ch budget graph p acc).1 :=
  foldGraph_wf ch budget hch p graph (fun _ hx => hx) acc hwf hfr hpm

theorem foldFrontier_wf {graph : HeteroGraph} (ch : Chooser) (budget : Nat)
    (hch : ValidChooser ch) :
    ∀ (f : List (NodeType × Nat)) (acc : SamplerState × List (NodeType × Nat)),
    StateWF graph acc.1 → FrOK acc.1 acc.2 →
    (∀ p ∈ f, p.2 ∈ acc.1.nodeSeq p.1) →
    StateWF graph (f.foldl (fun acc p => expandNodeAll ch budget graph p acc) acc).1 ∧
    FrOK (f.foldl (fun acc p => expandNodeAll ch budget graph p acc) acc).1
      (f.foldl (fun acc p => expandNodeAll ch budget graph p acc) acc).2 ∧
    Mono acc.1 (f.foldl (fun acc p => expandNodeAll ch budget graph p acc) acc).1 := by
  intro f
  induction f with
  | nil =>
      intro acc hwf hfr _
      exact ⟨hwf, hfr, mono_refl _⟩
  | cons p f ih =>
      intro acc hwf hfr hf
      simp only [List.foldl_cons]
      have hstep := expandNodeAll_wf ch budget hch p hwf hfr
        (hf p (List.mem_cons_self p f))
      obtain ⟨hwf', hfr', hm'⟩ := hstep
      have hrest := ih (expandNodeAll ch budget graph p acc) hwf' hfr'
        (fun q hq => (hm' q.1).mem (hf q (List.mem_cons_of_mem p hq)))
      exact ⟨hrest.1, hrest.2.1, mono_trans hm' hrest.2.2⟩

theorem runHop_wf {graph : HeteroGraph} (ch : Chooser) (budget : Nat)
    (hch : ValidChooser ch) {f : List (NodeType × Nat)} {s : SamplerState}
    (hwf : StateWF graph s) (hfr : FrOK s f) :
    StateWF graph (runHop ch graph budget f s).1 ∧
    FrOK (runHop ch graph budget f s).1 (runHop ch graph budget f s).2 ∧
    Mono s (runHop ch graph budget f s).1 := by
  unfold runHop
  exact foldFrontier_wf ch budget hch f (s, []) hwf (fun p hp => absurd hp (by simp))
    (fun p hp => hfr p hp)

theorem runHops_wf {graph : HeteroGraph} (ch : Chooser) (hch : ValidChooser ch) :
    ∀ (nn : List Nat) (f : List (NodeType × Nat)) (s : SamplerState),
    StateWF graph s → FrOK s f →
    StateWF graph (runHops ch graph nn f s) ∧ Mono s (runHops ch graph nn f s) := by
  intro nn
  induction nn with
  | nil =>
      intro f s hwf _
      exact ⟨hwf, mono_refl s⟩
  | cons b bs ih =>
      intro f s hwf hfr
      have hstep := runHop_wf ch b hch hwf hfr
      obtain ⟨hwf', hfr', hm'⟩ := hstep
      have hrest := ih (runHop ch graph b f s).2 (runHop ch graph b f s).1 hwf' hfr'
      exact ⟨hrest.1, mono_trans hm' hrest.2⟩

theorem addSeedNodes_wf {graph : HeteroGraph} (nt : NodeType) :
    ∀ (seeds : List Nat) (s : SamplerState) (nf : List (NodeType × Nat)),
    StateWF graph s → FrOK s nf →
    StateWF graph (addSeedNodes nt seeds s nf).1 ∧
    FrOK (addSeedNodes nt seeds s nf).1 (addSeedNodes nt seeds s nf).2 ∧
    Mono s (addSeedNodes nt seeds s nf).1 := by
  intro seeds
  induction seeds with
  | nil =>
      intro s nf hwf hfr
      exact ⟨hwf, hfr, mono_refl s⟩
  | cons id rest ih =>
      intro s nf hwf hfr
      have hm : Mono s (addNodeCore s nt id).1 := addNodeCore_mono s nt id
      have hwf' : StateWF graph (addNodeCore s nt id).1 := by
        refine ⟨fun nt' => addNodeCore_nodup s nt id hwf.1 nt', ?_⟩
        intro k t ht
        rw [show (addNodeCore s nt id).1.edgesOut k = s.edgesOut k from
          congrFun (addNodeCore_edges s nt id) k] at ht
        exact edgeOK_mono hm (hwf.2 k t ht)
      have hfr' : FrOK (addNodeCore s nt id).1
          (if (addNodeCore s nt id).2.2 then nf ++ [(nt, id)] else nf) := by
        intro p hp
        by_cases hb : (addNodeCore s nt id).2.2
        · simp only [hb, if_pos] at hp
          rcases List.mem_append.mp hp with h | h
          · exact (hm p.1).mem (hfr p h)
          · have : p = (nt, id) := by simpa using h
            subst this
            exact addNodeCore_mem s nt id
        · rw [if_neg hb] at hp
          exact (hm p.1).mem (hfr p hp)
      have hrest := ih (addNodeCore s nt id).1
        (if (addNodeCore s nt id).2.2 then nf ++ [(nt, id)] else nf) hwf' hfr'
      exact ⟨hrest.1, hrest.2.1, mono_trans hm hrest.2.2⟩

theorem sample_from_nodes_wf (graph : HeteroGraph) (ch : Chooser)
    (hch : ValidChooser ch) (nn : List Nat) (nt : NodeType) (seeds : List Nat) :
    StateWF graph (sample_from_nodes ch graph nn nt seeds) := by
  unfold sample_from_nodes
  have hseed := addSeedNodes_wf nt seeds initState [] (initState_wf graph)
    (fun p hp => absurd hp (by simp))
  exact (runHops_wf ch hch nn _ _ hseed.1 hseed.2.1).1

theorem posAligned_mono {s s' : SamplerState} {et : EdgeType}
    {pairs pos : List (Nat × Nat)} (hm : Mono s s')
    (h : PosAligned s et pairs pos) : PosAligned s' et pairs pos := by
  intro i hi
  obtain ⟨h1, h2, h3, h4⟩ := h i hi
  exact ⟨Nat.lt_of_lt_of_le h1 (hm et.1).length_le,
    ((hm et.1).nthD_eq h1 0).trans h2,
    Nat.lt_of_lt_of_le h3 (hm et.2.2).length_le,
    ((hm et.2.2).nthD_eq h3 0).trans h4⟩

theorem addNodeCore_wf {graph : HeteroGraph} {s : SamplerState}
    (nt : NodeType) (id : Nat) (hwf : StateWF graph s) :
    StateWF graph (addNodeCore s nt id).1 := by
  refine ⟨fun nt' => addNodeCore_nodup s nt id hwf.1 nt', ?_⟩
  intro k t ht
  rw [show (addNodeCore s nt id).1.edgesOut k = s.edgesOut k from
    congrFun (addNodeCore_edges s nt id) k] at ht
  exact edgeOK_mono (addNodeCore_mono s nt id) (hwf.2 k t ht)

theorem addNodeCore_frOK {s : SamplerState} (nt : NodeType) (id : Nat)
    {nf : List (NodeType × Nat)} (hfr : FrOK s nf) :
    FrOK (addNodeCore s nt id).1
      (if (addNodeCore s nt id).2.2 then nf ++ [(nt, id)] else nf) := by
  intro p hp
  by_cases hb : (addNodeCore s nt id).2.2
  · simp only [hb, if_pos] at hp
    rcases List.mem_append.mp hp with h | h
    · exact ((addNodeCore_mono s nt id) p.1).mem (hfr p h)
    · have : p = (nt, id) := by simpa using h
      subst this
      exact addNodeCore_mem s nt id
  · rw [if_neg hb] at hp
    exact ((addNodeCore_mono s nt id) p.1).mem (hfr p hp)

theorem addSeedPairs_cons (et : EdgeType) (rc : Nat × Nat) (rest : List (Nat × Nat))
    (s : SamplerState) (nf : List (NodeType × Nat)) :
    addSeedPairs et (rc :: rest) s nf =
      ((addSeedPairs et rest (addNodeCore (addNodeCore s et.1 rc.1).1 et.2.2 rc.2).1
          (if (addNodeCore (addNodeCore s et.1 rc.1).1 et.2.2 rc.2).2.2 then
            (if (addNodeCore s et.1 rc.1).2.2 then nf ++ [(et.1, rc.1)] else nf) ++ [(et.2.2, rc.2)]
           else (if (addNodeCore s et.1 rc.1).2.2 then nf ++ [(et.1, rc.1)] else nf))).1,
       (addSeedPairs et rest (addNodeCore (addNodeCore s et.1 rc.1).1 et.2.2 rc.2).1
          (if (addNodeCore (addNodeCore s et.1 rc.1).1 et.2.2 rc.2).2.2 then
            (if (addNodeCore s et.1 rc.1).2.2 then nf ++ [(et.1, rc.1)] else nf) ++ [(et.2.2, rc.2)]
           else (if (addNodeCore s et.1 rc.1).2.2 then nf ++ [(et.1, rc.1)] else nf))).2.1,
       ((addNodeCore s et.1 rc.1).2.1,
        (addNodeCore (addNodeCore s et.1 rc.1).1 et.2.2 rc.2).2.1) ::
       (addSeedPairs et rest (addNodeCore (addNodeCore s et.1 rc.1).1 et.2.2 rc.2).1
          (if (addNodeCore (addNodeCore s et.1 rc.1).1 et.2.2 rc.2).2.2 then
            (if (addNodeCore s et.1 rc.1).2.2 then nf ++ [(et.1, rc.1)] else nf) ++ [(et.2.2, rc.2)]
           else (if (addNodeCore s et.1 rc.1).2.2 then nf ++ [(et.1, rc.1)] else nf))).2.2) := rfl

theorem binNegLoop_cons (g : CSR) (negCh : Nat → Nat → Nat) (bound : Nat)
    (dt : NodeType) (i : Nat) (p : Nat × Nat) (rest : List (Nat × Nat))
    (s : SamplerState) :
    binNegLoop g negCh bound dt i (p :: rest) s =
      ((binNegLoop g negCh bound dt (i + 1) rest
          (addNodeCore s dt (pickNeg g p.1 ((List.range bound).map (negCh i)))).1).1,
       (p.2, (addNodeCore s dt (pickNeg g p.1 ((List.range bound).map (negCh i)))).2.1) ::
       (binNegLoop g negCh bound dt (i + 1) rest
          (addNodeCore s dt (pickNeg g p.1 ((List.range bound).map (negCh i)))).1).2) := rfl

theorem triNegOne_succ (g : CSR) (oracle : Nat → Nat → Nat) (bound : Nat)
    (dt : NodeType) (src j m : Nat) (s : SamplerState) :
    triNegOne g oracle bound dt src j (m + 1) s =
      ((triNegOne g oracle bound dt src (j + 1) m
          (addNodeCore s dt (pickNeg g src ((List.range bound).map (oracle j)))).1).1,
       (addNodeCore s dt (pickNeg g src ((List.range bound).map (oracle j)))).2.1 ::
       (triNegOne g oracle bound dt src (j + 1) m
          (addNodeCore s dt (pickNeg g src ((List.range bound).map (oracle j)))).1).2) := rfl

theorem triNegLoop_cons (g : CSR) (negCh : Nat → Nat → Nat → Nat)
    (bound amount : Nat) (dt : NodeType) (i src : Nat) (rest : List Nat)
    (s : SamplerState) :
    triNegLoop g negCh bound amount dt i (src :: rest) s =
      ((triNegLoop g negCh bound amount dt (i + 1) rest
          (triNegOne g (negCh i) bound dt src 0 amount s).1).1,
       (triNegOne g (negCh i) bound dt src 0 amount s).2 ::
       (triNegLoop g negCh bound amount dt (i + 1) rest
          (triNegOne g (negCh i) bound dt src 0 amount s).1).2) := rfl

theorem addSeedPairs_spec {graph : HeteroGraph} (et : EdgeType) :
    ∀ (pairs : List (Nat × Nat)) (s : SamplerState) (nf : List (NodeType × Nat)),
    StateWF graph s → FrOK s nf →
    StateWF graph (addSeedPairs et pairs s nf).1 ∧
    FrOK (addSeedPairs et pairs s nf).1 (addSeedPairs et pairs s nf).2.1 ∧
    Mono s (addSeedPairs et pairs s nf).1 ∧
    (addSeedPairs et pairs s nf).2.2.length = pairs.length ∧
    PosAligned (addSeedPairs et pairs s nf).1 et pairs (addSeedPairs et pairs s nf).2.2 := by
  intro pairs
  induction pairs with
  | nil =>
      intro s nf hwf hfr
      exact ⟨hwf, hfr, mono_refl s, rfl, fun i hi => absurd hi (by simp)⟩
  | cons rc rest ih =>
      intro s nf hwf hfr
      rw [addSeedPairs_cons]
      have hm1 : Mono s (addNodeCore s et.1 rc.1).1 := addNodeCore_mono s et.1 rc.1
      have hwf1 : StateWF graph (addNodeCore s et.1 rc.1).1 :=
        addNodeCore_wf et.1 rc.1 hwf
      have hfr1 := addNodeCore_frOK et.1 rc.1 hfr
      have hm2 : Mono (addNodeCore s et.1 rc.1).1
          (addNodeCore (addNodeCore s et.1 rc.1).1 et.2.2 rc.2).1 :=
        addNodeCore_mono _ et.2.2 rc.2
      have hwf2 : StateWF graph (addNodeCore (addNodeCore s et.1 rc.1).1 et.2.2 rc.2).1 :=
        addNodeCore_wf et.2.2 rc.2 hwf1
      have hfr2 := addNodeCore_frOK et.2.2 rc.2 hfr1
      have hrest := ih (addNodeCore (addNodeCore s et.1 rc.1).1 et.2.2 rc.2).1
        (if (addNodeCore (addNodeCore s et.1 rc.1).1 et.2.2 rc.2).2.2 then
          (if (addNodeCore s et.1 rc.1).2.2 then nf ++ [(et.1, rc.1)] else nf) ++ [(et.2.2, rc.2)]
         else (if (addNodeCore s et.1 rc.1).2.2 then nf ++ [(et.1, rc.1)] else nf))
        hwf2 hfr2
      obtain ⟨hwfR, hfrR, hmR, hlenR, hposR⟩ := hrest
      refine ⟨hwfR, hfrR, mono_trans (mono_trans hm1 hm2) hmR, by simpa using hlenR, ?_⟩
      intro i hi
      cases i with
      | zero =>
          have hi1lt : (addNodeCore s et.1 rc.1).2.1 <
              ((addNodeCore s et.1 rc.1).1.nodeSeq et.1).length :=
            addNodeCore_idx_lt s et.1 rc.1
          have hi1g : nthD ((addNodeCore s et.1 rc.1).1.nodeSeq et.1)
              (addNodeCore s et.1 rc.1).2.1 0 = rc.1 := addNodeCore_nthD s et.1 rc.1
          have hi1lt' : (addNodeCore s et.1 rc.1).2.1 <
              (((addNodeCore (addNodeCore s et.1 rc.1).1 et.2.2 rc.2).1).nodeSeq et.1).length :=
            Nat.lt_of_lt_of_le hi1lt (hm2 et.1).length_le
          have hi1g' : nthD (((addNodeCore (addNodeCore s et.1 rc.1).1 et.2.2 rc.2).1).nodeSeq et.1)
              (addNodeCore s et.1 rc.1).2.1 0 = rc.1 :=
            ((hm2 et.1).nthD_eq hi1lt 0).trans hi1g
          have hi2lt : (addNodeCore (addNodeCore s et.1 rc.1).1 et.2.2 rc.2).2.1 <
              (((addNodeCore (addNodeCore s et.1 rc.1).1 et.2.2 rc.2).1).nodeSeq et.2.2).length :=
            addNodeCore_idx_lt _ et.2.2 rc.2
          have hi2g : nthD (((addNodeCore (addNodeCore s et.1 rc.1).1 et.2.2 rc.2).1).nodeSeq et.2.2)
              (addNodeCore (addNodeCore s et.1 rc.1).1 et.2.2 rc.2).2.1 0 = rc.2 :=
            addNodeCore_nthD _ et.2.2 rc.2
          refine ⟨?_, ?_, ?_, ?_⟩
          · exact Nat.lt_of_lt_of_le hi1lt' (hmR et.1).length_le
          · exact ((hmR et.1).nthD_eq hi1lt' 0).trans hi1g'
          · exact Nat.lt_of_lt_of_le hi2lt (hmR et.2.2).length_le
          · exact ((hmR et.2.2).nthD_eq hi2lt 0).trans hi2g
      | succ i =>
          have hi' : i < rest.length := Nat.lt_of_succ_lt_succ (by simpa using hi)
          simpa [nthD_cons_succ] using hposR i hi'

/-- If some drawn candidate is a non-neighbor of the anchor, the
rejection-pick returns a non-neighbor. -/
theorem pickNeg_not_neighbor {g : CSR} {src : Nat} {cands : List Nat}
    (h : ∃ c ∈ cands, isTrueNeighbor g src c = false) :
    isTrueNeighbor g src (pickNeg g src cands) = false := by
  unfold pickNeg
  cases hf : cands.find? (fun c => !(isTrueNeighbor g src c)) with
  | some c =>
      have := List.find?_some hf
      simpa using this
  | none =>
      obtain ⟨c, hc, hcf⟩ := h
      have := List.find?_eq_none.mp hf c hc
      simp [hcf] at this

theorem binNegLoop_spec {graph : HeteroGraph} (g : CSR) (negCh : Nat → Nat → Nat)
    (bound : Nat) (dt : NodeType) :
    ∀ (lst : List (Nat × Nat)) (i0 : Nat) (s : SamplerState), StateWF graph s →
    StateWF graph (binNegLoop g negCh bound dt i0 lst s).1 ∧
    Mono s (binNegLoop g negCh bound dt i0 lst s).1 ∧
    (binNegLoop g negCh bound dt i0 lst s).2.length = lst.length ∧
    (∀ j, j < lst.length →
      (nthD (binNegLoop g negCh bound dt i0 lst s).2 j (0, 0)).1 = (nthD lst j (0, 0)).2 ∧
      (nthD (binNegLoop g negCh bound dt i0 lst s).2 j (0, 0)).2 <
        ((binNegLoop g negCh bound dt i0 lst s).1.nodeSeq dt).length ∧
      nthD ((binNegLoop g negCh bound dt i0 lst s).1.nodeSeq dt)
        (nthD (binNegLoop g negCh bound dt i0 lst s).2 j (0, 0)).2 0
        = pickNeg g (nthD lst j (0, 0)).1 ((List.range bound).map (negCh (i0 + j)))) := by
  intro lst
  induction lst with
  | nil =>
      intro i0 s hwf
      exact ⟨hwf, mono_refl s, rfl, fun j hj => absurd hj (by simp)⟩
  | cons p rest ih =>
      intro i0 s hwf
      rw [binNegLoop_cons]
      have hm1 : Mono s (addNodeCore s dt (pickNeg g p.1 ((List.range bound).map (negCh i0)))).1 :=
        addNodeCore_mono s dt _
      have hwf1 : StateWF graph (addNodeCore s dt
          (pickNeg g p.1 ((List.range bound).map (negCh i0)))).1 :=
        addNodeCore_wf dt (pickNeg g p.1 ((List.range bound).map (negCh i0))) hwf
      have hrest := ih (i0 + 1)
        (addNodeCore s dt (pickNeg g p.1 ((List.range bound).map (negCh i0)))).1 hwf1
      obtain ⟨hwfR, hmR, hlenR, hposR⟩ := hrest
      refine ⟨hwfR, mono_trans hm1 hmR, by simpa using hlenR, ?_⟩
      intro j hj
      cases j with
      | zero =>
          have hlt := addNodeCore_idx_lt s dt (pickNeg g p.1 ((List.range bound).map (negCh i0)))
          have hg := addNodeCore_nthD s dt (pickNeg g p.1 ((List.range bound).map (negCh i0)))
          exact ⟨rfl, Nat.lt_of_lt_of_le hlt (hmR dt).length_le,
            ((hmR dt).nthD_eq hlt 0).trans hg⟩
      | succ j =>
          have hj' : j < rest.length := Nat.lt_of_succ_lt_succ (by simpa using hj)
          have hstep := hposR j hj'
          have h22 := hstep.2.2
          rw [show i0 + 1 + j = i0 + (j + 1) by omega] at h22
          exact ⟨hstep.1, hstep.2.1, h22⟩

theorem triNegOne_spec (graph : HeteroGraph) (g : CSR) (oracle : Nat → Nat → Nat)
    (bound : Nat) (dt : NodeType) (src : Nat) :
    ∀ (amount j : Nat) (s : SamplerState), StateWF graph s →
    StateWF graph (triNegOne g oracle bound dt src j amount s).1 ∧
    Mono s (triNegOne g oracle bound dt src j amount s).1 ∧
    (triNegOne g oracle bound dt src j amount s).2.length = amount ∧
    (∀ x ∈ (triNegOne g oracle bound dt src j amount s).2,
      x < ((triNegOne g oracle bound dt src j amount s).1.nodeSeq dt).length) := by
  intro amount
  induction amount with
  | zero =>
      intro j s hwf
      exact ⟨hwf, mono_refl s, rfl, fun x hx => absurd hx (by simp [triNegOne])⟩
  | succ m ih =>
      intro j s hwf
      rw [triNegOne_succ]
      have hm1 : Mono s (addNodeCore s dt (pickNeg g src ((List.range bound).map (oracle j)))).1 :=
        addNodeCore_mono s dt _
      have hwf1 : StateWF graph (addNodeCore s dt
          (pickNeg g src ((List.range bound).map (oracle j)))).1 :=
        addNodeCore_wf dt (pickNeg g src ((List.range bound).map (oracle j))) hwf
      have hrest := ih (j + 1)
        (addNodeCore s dt (pickNeg g src ((List.range bound).map (oracle j)))).1 hwf1
      obtain ⟨hwfR, hmR, hlenR, hbR⟩ := hrest
      refine ⟨hwfR, mono_trans hm1 hmR, by simpa using hlenR, ?_⟩
      intro x hx
      rcases List.mem_cons.mp hx with h | h
      · subst h
        exact Nat.lt_of_lt_of_le (addNodeCore_idx_lt s dt _) (hmR dt).length_le
      · exact hbR x h

theorem triNegLoop_spec {graph : HeteroGraph} (g : CSR)
    (negCh : Nat → Nat → Nat → Nat) (bound amount : Nat) (dt : NodeType) :
    ∀ (lst : List Nat) (i0 : Nat) (s : SamplerState), StateWF graph s →
    StateWF graph (triNegLoop g negCh bound amount dt i0 lst s).1 ∧
    Mono s (triNegLoop g negCh bound amount dt i0 lst s).1 ∧
    (triNegLoop g negCh bound amount dt i0 lst s).2.length = lst.length ∧
    (∀ row ∈ (triNegLoop g negCh bound amount dt i0 lst s).2,
      row.length = amount ∧
      ∀ x ∈ row, x < ((triNegLoop g negCh bound amount dt i0 lst s).1.nodeSeq dt).length) := by
  intro lst
  induction lst with
  | nil =>
      intro i0 s hwf
      exact ⟨hwf, mono_refl s, rfl, fun row hrow => absurd hrow (by simp [triNegLoop])⟩
  | cons src rest ih =>
      intro i0 s hwf
      rw [triNegLoop_cons]
      have hone := triNegOne_spec graph g (negCh i0) bound dt src amount 0 s hwf
      obtain ⟨hwf1, hm1, hlen1, hb1⟩ := hone
      have hrest := ih (i0 + 1) (triNegOne g (negCh i0) bound dt src 0 amount s).1 hwf1
      obtain ⟨hwfR, hmR, hlenR, hrowR⟩ := hrest
      refine ⟨hwfR, mono_trans hm1 hmR, by simpa using hlenR, ?_⟩
      intro row hrow
      rcases List.mem_cons.mp hrow with h | h
      · subst h
        refine ⟨hlen1, ?_⟩
        intro x hx
        exact Nat.lt_of_lt_of_le (hb1 x hx) (hmR dt).length_le
      · exact hrowR row h

theorem sample_from_edges_binary_wf {graph : HeteroGraph} (ch : Chooser)
    (hch : ValidChooser ch) (negCh : Nat → Nat → Nat) (bound : Nat)
    (nn : List Nat) (et : EdgeType) (rows cols : List Nat) :
    StateWF graph (sample_from_edges_binary ch negCh bound graph nn et rows cols).1 := by
  unfold sample_from_edges_binary
  have hseed := addSeedPairs_spec et (rows.zip cols) initState [] (initState_wf graph)
    (fun p hp => absurd hp (by simp))
  have hrun := runHops_wf ch hch nn _ _ hseed.1 hseed.2.1
  exact (binNegLoop_spec (lookupCSR graph et) negCh bound et.2.2
    (rows.zip ((addSeedPairs et (rows.zip cols) initState []).2.2.map Prod.fst)) 0 _ hrun.1).1

theorem sample_from_edges_triplet_wf {graph : HeteroGraph} (ch : Chooser)
    (hch : ValidChooser ch) (negCh : Nat → Nat → Nat → Nat) (bound : Nat)
    (nn : List Nat) (et : EdgeType) (rows cols : List Nat) (amount : Nat) :
    StateWF graph (sample_from_edges_triplet ch negCh bound graph nn et rows cols amount).1 := by
  unfold sample_from_edges_triplet
  have hseed := addSeedPairs_spec et (rows.zip cols) initState [] (initState_wf graph)
    (fun p hp => absurd hp (by simp))
  have hrun := runHops_wf ch hch nn _ _ hseed.1 hseed.2.1
  exact (triNegLoop_spec (lookupCSR graph et) negCh bound amount et.2.2
    rows 0 _ hrun.1).1

theorem sampleAny_wf {graph : HeteroGraph} (ch : Chooser) (hch : ValidChooser ch)
    (negCh2 : Nat → Nat → Nat) (negCh3 : Nat → Nat → Nat → Nat) (bound : Nat)
    (nn : List Nat) (inp : SamplerInput) :
    StateWF graph (sampleAny ch negCh2 negCh3 bound graph nn inp) := by
  cases inp with
  | node nt seeds => exact sample_from_nodes_wf graph ch hch nn nt seeds
  | edgeBin et rows cols =>
      exact sample_from_edges_binary_wf ch hch negCh2 bound nn et rows cols
  | edgeTri et rows cols amount =>
      exact sample_from_edges_triplet_wf ch hch negCh3 bound nn et rows cols amount

theorem recordOne_count (et : EdgeType) (srcIdx : Nat)
    (acc : SamplerState × List (NodeType × Nat)) (de : Nat × Nat) :
    ((recordOne et srcIdx acc de).1.edgesOut (outKey et)).length
      = (acc.1.edgesOut (outKey et)).length + 1 := by
  rw [recordOne_fst]
  simp [pushEdge, addNodeCore_edges]

theorem foldRecord_count (et : EdgeType) (srcIdx : Nat) :
    ∀ (l : List (Nat × Nat)) (acc : SamplerState × List (NodeType × Nat)),
    ((l.foldl (recordOne et srcIdx) acc).1.edgesOut (outKey et)).length
      = (acc.1.edgesOut (outKey et)).length + l.length := by
  intro l
  induction l with
  | nil => intro acc; simp
  | cons de l ih =>
      intro acc
      rw [List.foldl_cons, ih, recordOne_count]
      simp [List.length_cons]
      omega

theorem nthD_take {α : Type} :
    ∀ (l : List α) (n i : Nat) (d : α), i < n →
      nthD (l.take n) i d = nthD l i d
  | [], _, _, _, _ => by simp
  | _ :: _, 0, i, _, h => absurd h (by omega)
  | _ :: _, _ + 1, 0, _, _ => rfl
  | _ :: l, n + 1, i + 1, d, h =>
      nthD_take l n i d (Nat.lt_of_succ_lt_succ h)

theorem nthD_drop {α : Type} :
    ∀ (l : List α) (n i : Nat) (d : α),
      nthD (l.drop n) i d = nthD l (n + i) d
  | _, 0, i, _ => by rw [List.drop_zero, Nat.zero_add]
  | [], _ + 1, _, _ => by simp [nthD_nil]
  | a :: l, n + 1, i, d => by
      rw [List.drop_succ_cons,
        show (n + 1) + i = (n + i) + 1 by omega, nthD_cons_succ]
      exact nthD_drop l n i d

/-- Resolving a registered GlobalID — through the hot replica or the cold
partition, whichever holds its row — returns exactly the row `id2idx`
assigned to it. -/
theorem Feature.lookup1_row {α : Type} (f : Feature α) (d : α) (id : Nat) :
    f.lookup1 d id = nthD f.rows (f.id2idx id) d := by
  unfold Feature.lookup1
  by_cases h : f.id2idx id < f.hotCount
  · simp only [h, if_pos]
    exact nthD_take f.rows f.hotCount (f.id2idx id) d h
  · simp only [h, if_neg, not_false_iff]
    unfold Feature.coldRows
    rw [nthD_drop]
    congr 1
    omega

/-- A CSR row with no span records no neighbors. -/
theorem CSR.neighbors_empty (g : CSR) (s : Nat)
    (h : nthD g.row_ptr (s + 1) 0 ≤ nthD g.row_ptr s 0) :
    g.neighbors s = [] := by
  unfold CSR.neighbors
  rw [Nat.sub_eq_zero_of_le h]
  simp

/-- Every edge of the reference `i2i` CSR block runs from `s` to
`(s+2)%40` or `(s+3)%40`. -/
theorem i2i_edge_rel :
    ∀ s d e, i2i_csr.hasEdge s d e → d = (s + 2) % 40 ∨ d = (s + 3) % 40 := by
  intro s d e h
  by_cases hs : s < 40
  · have hdec : ∀ s' < 40, ∀ p ∈ i2i_csr.neighbors s',
        p.1 = (s' + 2) % 40 ∨ p.1 = (s' + 3) % 40 := by decide
    exact hdec s hs (d, e) h
  · have hempty : i2i_csr.neighbors s = [] := by
      apply CSR.neighbors_empty
      rw [show nthD i2i_csr.row_ptr (s + 1) 0 = 0 from
        nthD_ge_length _ _ _ (by simp [i2i_csr]; omega)]
      exact Nat.zero_le _
    unfold CSR.hasEdge at h
    rw [hempty] at h
    cases h

/-- Every edge of the reference `u2i` CSR block runs from `s` to
`(s+1)%40` or `(s+2)%40`. -/
theorem u2i_edge_rel :
    ∀ s d e, u2i_csr.hasEdge s d e → d = (s + 1) % 40 ∨ d = (s + 2) % 40 := by
  intro s d e h
  by_cases hs : s < 40
  · have hdec : ∀ s' < 40, ∀ p ∈ u2i_csr.neighbors s',
        p.1 = (s' + 1) % 40 ∨ p.1 = (s' + 2) % 40 := by decide
    exact hdec s hs (d, e) h
  · have hempty : u2i_csr.neighbors s = [] := by
      apply CSR.neighbors_empty
      rw [show nthD u2i_csr.row_ptr (s + 1) 0 = 0 from
        nthD_ge_length _ _ _ (by simp [u2i_csr]; omega)]
      exact Nat.zero_le _
    unfold CSR.hasEdge at h
    rw [hempty] at h
    cases h

theorem sample_from_edges_binary_st (ch : Chooser) (negCh : Nat → Nat → Nat)
    (bound : Nat) (graph : HeteroGraph) (nn : List Nat) (et : EdgeType)
    (rows cols : List Nat) :
    (sample_from_edges_binary ch negCh bound graph nn et rows cols).1
      = (binNegLoop (lookupCSR graph et) negCh bound et.2.2 0
          (rows.zip ((addSeedPairs et (rows.zip cols) initState []).2.2.map Prod.fst))
          (runHops ch graph nn (addSeedPairs et (rows.zip cols) initState []).2.1
            (addSeedPairs et (rows.zip cols) initState []).1)).1 := rfl

theorem sample_from_edges_binary_eli (ch : Chooser) (negCh : Nat → Nat → Nat)
    (bound : Nat) (graph : HeteroGraph) (nn : List Nat) (et : EdgeType)
    (rows cols : List Nat) :
    (sample_from_edges_binary ch negCh bound graph nn et rows cols).2.edge_label_index
      = (addSeedPairs et (rows.zip cols) initState []).2.2 ++
        (binNegLoop (lookupCSR graph et) negCh bound et.2.2 0
          (rows.zip ((addSeedPairs et (rows.zip cols) initState []).2.2.map Prod.fst))
          (runHops ch graph nn (addSeedPairs et (rows.zip cols) initState []).2.1
            (addSeedPairs et (rows.zip cols) initState []).1)).2 := rfl

theorem sample_from_edges_binary_el (ch : Chooser) (negCh : Nat → Nat → Nat)
    (bound : Nat) (graph : HeteroGraph) (nn : List Nat) (et : EdgeType)
    (rows cols : List Nat) :
    (sample_from_edges_binary ch negCh bound graph nn et rows cols).2.edge_label
      = List.replicate rows.length 1 ++ List.replicate rows.length 0 := rfl

theorem sample_from_edges_triplet_st (ch : Chooser) (negCh : Nat → Nat → Nat → Nat)
    (bound : Nat) (graph : HeteroGraph) (nn : List Nat) (et : EdgeType)
    (rows cols : List Nat) (amount : Nat) :
    (sample_from_edges_triplet ch negCh bound graph nn et rows cols amount).1
      = (triNegLoop (lookupCSR graph et) negCh bound amount et.2.2 0 rows
          (runHops ch graph nn (addSeedPairs et (rows.zip cols) initState []).2.1
            (addSeedPairs et (rows.zip cols) initState []).1)).1 := rfl

theorem sample_from_edges_triplet_srci (ch : Chooser) (negCh : Nat → Nat → Nat → Nat)
    (bound : Nat) (graph : HeteroGraph) (nn : List Nat) (et : EdgeType)
    (rows cols : List Nat) (amount : Nat) :
    (sample_from_edges_triplet ch negCh bound graph nn et rows cols amount).2.src_index
      = (addSeedPairs et (rows.zip cols) initState []).2.2.map Prod.fst := rfl

theorem sample_from_edges_triplet_dsti (ch : Chooser) (negCh : Nat → Nat → Nat → Nat)
    (bound : Nat) (graph : HeteroGraph) (nn : List Nat) (et : EdgeType)
    (rows cols : List Nat) (amount : Nat) :
    (sample_from_edges_triplet ch negCh bound graph nn et rows cols amount).2.dst_pos_index
      = (addSeedPairs et (rows.zip cols) initState []).2.2.map Prod.snd := rfl

theorem sample_from_edges_triplet_negi (ch : Chooser) (negCh : Nat → Nat → Nat → Nat)
    (bound : Nat) (graph : HeteroGraph) (nn : List Nat) (et : EdgeType)
    (rows cols : List Nat) (amount : Nat) :
    (sample_from_edges_triplet ch negCh bound graph nn et rows cols amount).2.dst_neg_index
      = (triNegLoop (lookupCSR graph et) negCh bound amount et.2.2 0 rows
          (runHops ch graph nn (addSeedPairs et (rows.zip cols) initState []).2.1
            (addSeedPairs et (rows.zip cols) initState []).1)).2 := rfl

/-- C1: Topology fidelity — for every sampling request (node-based or
edge-based, any valid fan-out chooser and negative oracles) and every
EdgeType key of its SamplingOutput, every recorded (row LocalIndex, col
LocalIndex, edge GlobalID) triple, when row and col are mapped back through
the per-NodeType node ID sequences, corresponds to an edge actually present
in the source CSR topology of the EdgeType the key derives from. -/
theorem claim_C1_topology_fidelity (ch : Chooser) (negCh2 : Nat → Nat → Nat)
    (negCh3 : Nat → Nat → Nat → Nat) (bound : Nat) (graph : HeteroGraph)
    (num_neighbors : List Nat) (inp : SamplerInput) (hch : ValidChooser ch) :
    ∀ k t, t ∈ (sampleAny ch negCh2 negCh3 bound graph num_neighbors inp).edgesOut k →
      ∃ p ∈ graph, k = outKey p.1 ∧
        p.2.hasEdge
          (nthD ((sampleAny ch negCh2 negCh3 bound graph num_neighbors inp).nodeSeq p.1.1)
            t.2.1 0)
          (nthD ((sampleAny ch negCh2 negCh3 bound graph num_neighbors inp).nodeSeq p.1.2.2)
            t.1 0)
          t.2.2 := by
  intro k t ht
  obtain ⟨p, hp, hk, _, _, h3⟩ :=
    (sampleAny_wf ch hch negCh2 negCh3 bound num_neighbors inp).2 k t ht
  exact ⟨p, hp, hk, h3⟩

/-- Witness for C1 at the take-first chooser, the reference ring dataset and
the node-based test request. -/
theorem claim_C1_witness :
    ValidChooser takeChooser ∧
    (∀ k t, t ∈ (sampleAny takeChooser (fun _ _ => 0) (fun _ _ _ => 0) 1 test_graph [2, 1]
        (SamplerInput.node "user" user_seeds)).edgesOut k →
      ∃ p ∈ test_graph, k = outKey p.1 ∧
        p.2.hasEdge
          (nthD ((sampleAny takeChooser (fun _ _ => 0) (fun _ _ _ => 0) 1 test_graph [2, 1]
            (SamplerInput.node "user" user_seeds)).nodeSeq p.1.1) t.2.1 0)
          (nthD ((sampleAny takeChooser (fun _ _ => 0) (fun _ _ _ => 0) 1 test_graph [2, 1]
            (SamplerInput.node "user" user_seeds)).nodeSeq p.1.2.2) t.1 0)
          t.2.2) :=
  ⟨takeChooser_valid,
   claim_C1_topology_fidelity takeChooser (fun _ _ => 0) (fun _ _ _ => 0) 1 test_graph [2, 1]
     (SamplerInput.node "user" user_seeds) takeChooser_valid⟩

/-- C5: Dedup invariant — for every sampling request (all three request
kinds, including edge-based seeds and negative-sampling candidates folded
into the same space) and every NodeType, each GlobalID appears at most once
in that NodeType's ordered ID sequence. -/
theorem claim_C5_dedup_invariant (ch : Chooser) (negCh2 : Nat → Nat → Nat)
    (negCh3 : Nat → Nat → Nat → Nat) (bound : Nat) (graph : HeteroGraph)
    (num_neighbors : List Nat) (inp : SamplerInput) (hch : ValidChooser ch) :
    ∀ nt, ((sampleAny ch negCh2 negCh3 bound graph num_neighbors inp).nodeSeq nt).Nodup :=
  fun nt => (sampleAny_wf ch hch negCh2 negCh3 bound num_neighbors inp).1 nt

/-- Witness for C5 at the take-first chooser and the node-based test
request. -/
theorem claim_C5_witness :
    ValidChooser takeChooser ∧
    (∀ nt, ((sampleAny takeChooser (fun _ _ => 0) (fun _ _ _ => 0) 1 test_graph [2, 1]
        (SamplerInput.node "user" user_seeds)).nodeSeq nt).Nodup) :=
  ⟨takeChooser_valid,
   claim_C5_dedup_invariant takeChooser (fun _ _ => 0) (fun _ _ _ => 0) 1 test_graph [2, 1]
     (SamplerInput.node "user" user_seeds) takeChooser_valid⟩

/-- C6: Local-index validity — for every sampling request and every EdgeType
key of its output, every row value is a valid LocalIndex into the
destination NodeType's ID sequence and every col value a valid LocalIndex
into the source NodeType's ID sequence. -/
theorem claim_C6_local_index_validity (ch : Chooser) (negCh2 : Nat → Nat → Nat)
    (negCh3 : Nat → Nat → Nat → Nat) (bound : Nat) (graph : HeteroGraph)
    (num_neighbors : List Nat) (inp : SamplerInput) (hch : ValidChooser ch) :
    ∀ k t, t ∈ (sampleAny ch negCh2 negCh3 bound graph num_neighbors inp).edgesOut k →
      ∃ p ∈ graph, k = outKey p.1 ∧
        t.1 < ((sampleAny ch negCh2 negCh3 bound graph num_neighbors inp).nodeSeq p.1.2.2).length ∧
        t.2.1 < ((sampleAny ch negCh2 negCh3 bound graph num_neighbors inp).nodeSeq p.1.1).length := by
  intro k t ht
  obtain ⟨p, hp, hk, h1, h2, _⟩ :=
    (sampleAny_wf ch hch negCh2 negCh3 bound num_neighbors inp).2 k t ht
  exact ⟨p, hp, hk, h1, h2⟩

/-- Witness for C6 at the take-first chooser and the node-based test
request. -/
theorem claim_C6_witness :
    ValidChooser takeChooser ∧
    (∀ k t, t ∈ (sampleAny takeChooser (fun _ _ => 0) (fun _ _ _ => 0) 1 test_graph [2, 1]
        (SamplerInput.node "user" user_seeds)).edgesOut k →
      ∃ p ∈ test_graph, k = outKey p.1 ∧
        t.1 < ((sampleAny takeChooser (fun _ _ => 0) (fun _ _ _ => 0) 1 test_graph [2, 1]
          (SamplerInput.node "user" user_seeds)).nodeSeq p.1.2.2).length ∧
        t.2.1 < ((sampleAny takeChooser (fun _ _ => 0) (fun _ _ _ => 0) 1 test_graph [2, 1]
          (SamplerInput.node "user" user_seeds)).nodeSeq p.1.1).length) :=
  ⟨takeChooser_valid,
   claim_C6_local_index_validity takeChooser (fun _ _ => 0) (fun _ _ _ => 0) 1 test_graph [2, 1]
     (SamplerInput.node "user" user_seeds) takeChooser_valid⟩

/-- C7: Fan-out bound — at any hop whose budget is `budget`, the edges
recorded from a single source node along one EdgeType number exactly the
chosen neighbors, which never exceed the budget; a node of degree at most
the budget has all its neighbors taken, and a node of larger degree has
exactly `budget` neighbors chosen without replacement (a subsequence of its
CSR neighbor list). -/
theorem claim_C7_fanout_bound (ch : Chooser) (g : CSR) (et : EdgeType)
    (budget src : Nat) (acc : SamplerState × List (NodeType × Nat))
    (hch : ValidChooser ch) (hwf : g.wfb = true) :
    (ch (g.neighbors src) budget).length ≤ budget ∧
    (g.degree src ≤ budget → ch (g.neighbors src) budget = g.neighbors src) ∧
    (budget < g.degree src →
      (ch (g.neighbors src) budget).length = budget ∧
      (ch (g.neighbors src) budget).Sublist (g.neighbors src)) ∧
    ((expandNodeEdge ch budget et g src acc).1.edgesOut (outKey et)).length
      = (acc.1.edgesOut (outKey et)).length + (ch (g.neighbors src) budget).length := by
  have hlen := (hch (g.neighbors src) budget).2
  have hsub := (hch (g.neighbors src) budget).1
  have hdeg := CSR.length_neighbors_of_wfb g hwf src
  refine ⟨?_, ?_, ?_, ?_⟩
  · rw [hlen]
    exact Nat.min_le_left _ _
  · intro h
    apply hsub.eq_of_length
    rw [hlen, hdeg]
    omega
  · intro h
    refine ⟨?_, hsub⟩
    rw [hlen, hdeg]
    omega
  · exact foldRecord_count et (idxOf (acc.1.nodeSeq et.1) src) (ch (g.neighbors src) budget) acc

/-- Witness for C7 at the take-first chooser on the reference `u2i` CSR
block, budget 2, source user 0. -/
theorem claim_C7_witness :
    ValidChooser takeChooser ∧ u2i_csr.wfb = true ∧
    ((takeChooser (u2i_csr.neighbors 0) 2).length ≤ 2 ∧
     (u2i_csr.degree 0 ≤ 2 → takeChooser (u2i_csr.neighbors 0) 2 = u2i_csr.neighbors 0) ∧
     (2 < u2i_csr.degree 0 →
       (takeChooser (u2i_csr.neighbors 0) 2).length = 2 ∧
       (takeChooser (u2i_csr.neighbors 0) 2).Sublist (u2i_csr.neighbors 0)) ∧
     ((expandNodeEdge takeChooser 2 u2i_etype u2i_csr 0 ((initState, []) : SamplerState × List (NodeType × Nat))).1.edgesOut
        (outKey u2i_etype)).length
       = ((((initState, []) : SamplerState × List (NodeType × Nat)).1).edgesOut (outKey u2i_etype)).length
         + (takeChooser (u2i_csr.neighbors 0) 2).length) :=
  ⟨takeChooser_valid, by decide,
   claim_C7_fanout_bound takeChooser u2i_csr u2i_etype 2 0
     ((initState, []) : SamplerState × List (NodeType × Nat))
     takeChooser_valid (by decide)⟩

/-- C8: Feature-lookup alignment round-trip — looking up an ordered sequence
of registered GlobalIDs in a Feature store returns a dense matrix of the
same length whose row i is the feature row that `id2idx` registered for
`ids[i]`, regardless of which rows sit in the hot replica and which in the
cold partition. -/
theorem claim_C8_lookup_alignment {α : Type} (f : Feature α) (d : α)
    (ids : List Nat) (hreg : ∀ id ∈ ids, f.id2idx id < f.rows.length) :
    (f.lookup d ids).length = ids.length ∧
    ∀ i, i < ids.length →
      nthD (f.lookup d ids) i d = nthD f.rows (f.id2idx (nthD ids i 0)) d := by
  have _hr := hreg
  constructor
  · simp [Feature.lookup]
  · intro i hi
    unfold Feature.lookup
    rw [nthD_map (f.lookup1 d) ids i 0 d hi]
    exact Feature.lookup1_row f d (nthD ids i 0)

/-- Witness for C8 on a three-row feature table with hot count 1 and queried
ids in shuffled order. -/
theorem claim_C8_witness :
    (∀ id ∈ [2, 0, 1], (Feature.mk [10, 20, 30] (fun id => id) 1).id2idx id
      < (Feature.mk ([10, 20, 30] : List Nat) (fun id => id) 1).rows.length) ∧
    (((Feature.mk ([10, 20, 30] : List Nat) (fun id => id) 1).lookup 0 [2, 0, 1]).length
       = ([2, 0, 1] : List Nat).length ∧
     ∀ i, i < ([2, 0, 1] : List Nat).length →
       nthD ((Feature.mk ([10, 20, 30] : List Nat) (fun id => id) 1).lookup 0 [2, 0, 1]) i 0
         = nthD ([10, 20, 30] : List Nat)
             ((Feature.mk ([10, 20, 30] : List Nat) (fun id => id) 1).id2idx
               (nthD [2, 0, 1] i 0)) 0) :=
  ⟨by decide,
   claim_C8_lookup_alignment (Feature.mk ([10, 20, 30] : List Nat) (fun id => id) 1)
     0 [2, 0, 1] (by decide)⟩

/-- C9: Malformed-configuration rejection — a request with an empty
`num_neighbors` list, seed arrays of mismatched length, or a non-positive
`amount` in triplet mode is rejected synchronously at validation: the
checked entry points return an error and produce no SamplingOutput, so no
traversal, dedup or feature work is performed for it. -/
theorem claim_C9_malformed_rejection (ch : Chooser) (negCh2 : Nat → Nat → Nat)
    (negCh3 : Nat → Nat → Nat → Nat) (bound : Nat) (graph : HeteroGraph)
    (nn : List Nat) (nt : NodeType) (seeds : List Nat) (et : EdgeType)
    (rows cols : List Nat) (conf : NegConf)
    (hbad : nn = [] ∨ rows.length ≠ cols.length ∨
      (conf.mode = NegMode.triplet ∧ conf.amount ≤ 0)) :
    (∃ e, sample_from_edges_checked ch negCh2 negCh3 bound graph nn et rows cols conf
        = Except.error e) ∧
    (nn = [] → sample_from_nodes_checked ch graph nn nt seeds
        = Except.error ConfigError.emptyNumNeighbors) := by
  constructor
  · unfold sample_from_edges_checked
    by_cases h1 : nn.isEmpty
    · exact ⟨ConfigError.emptyNumNeighbors, by rw [if_pos h1]⟩
    · rw [if_neg h1]
      by_cases h2 : rows.length ≠ cols.length
      · exact ⟨ConfigError.mismatchedSeeds, by rw [if_pos h2]⟩
      · rw [if_neg h2]
        rcases hbad with h | h | h
        · exact absurd (by simp [h] : nn.isEmpty = true) h1
        · exact absurd h h2
        · obtain ⟨hm, ha⟩ := h
          rw [hm]
          exact ⟨ConfigError.nonPositiveAmount, by rw [if_pos ha]⟩
  · intro h
    subst h
    unfold sample_from_nodes_checked
    rfl

/-- Witness for C9: the empty `num_neighbors` list is rejected by both
checked entry points. -/
theorem claim_C9_witness :
    (([] : List Nat) = [] ∨ ([0] : List Nat).length ≠ ([] : List Nat).length ∨
      ((NegConf.mk NegMode.binary 1).mode = NegMode.triplet ∧
        (NegConf.mk NegMode.binary 1).amount ≤ 0)) ∧
    ((∃ e, sample_from_edges_checked takeChooser (fun _ _ => 0) (fun _ _ _ => 0) 1
        test_graph [] u2i_etype [0] [] (NegConf.mk NegMode.binary 1) = Except.error e) ∧
     (([] : List Nat) = [] → sample_from_nodes_checked takeChooser test_graph [] "user" [0]
        = Except.error ConfigError.emptyNumNeighbors)) :=
  ⟨Or.inl rfl,
   claim_C9_malformed_rejection takeChooser (fun _ _ => 0) (fun _ _ _ => 0) 1 test_graph
     [] "user" [0] u2i_etype [0] [] (NegConf.mk NegMode.binary 1) (Or.inl rfl)⟩

/-- C2: Ring-scenario correctness — on the reference ring dataset, sampling
from user seeds {1,5,...,29} with `num_neighbors = [2,1]` under any valid
fan-out chooser yields only item-item edges whose global (src, dst) pairs
satisfy dst ∈ {(src+2)%40, (src+3)%40} and only reverse user-item edges
whose global (src, dst) pairs satisfy dst ∈ {(src+1)%40, (src+2)%40}. -/
theorem claim_C2_ring_scenario (ch : Chooser) (hch : ValidChooser ch) :
    (∀ t ∈ (sample_from_nodes ch test_graph [2, 1] "user" user_seeds).edgesOut i2i_etype,
      nthD ((sample_from_nodes ch test_graph [2, 1] "user" user_seeds).nodeSeq "item") t.1 0
        = (nthD ((sample_from_nodes ch test_graph [2, 1] "user" user_seeds).nodeSeq "item")
            t.2.1 0 + 2) % 40 ∨
      nthD ((sample_from_nodes ch test_graph [2, 1] "user" user_seeds).nodeSeq "item") t.1 0
        = (nthD ((sample_from_nodes ch test_graph [2, 1] "user" user_seeds).nodeSeq "item")
            t.2.1 0 + 3) % 40) ∧
    (∀ t ∈ (sample_from_nodes ch test_graph [2, 1] "user" user_seeds).edgesOut rev_u2i_etype,
      nthD ((sample_from_nodes ch test_graph [2, 1] "user" user_seeds).nodeSeq "item") t.1 0
        = (nthD ((sample_from_nodes ch test_graph [2, 1] "user" user_seeds).nodeSeq "user")
            t.2.1 0 + 1) % 40 ∨
      nthD ((sample_from_nodes ch test_graph [2, 1] "user" user_seeds).nodeSeq "item") t.1 0
        = (nthD ((sample_from_nodes ch test_graph [2, 1] "user" user_seeds).nodeSeq "user")
            t.2.1 0 + 2) % 40) := by
  have hwf := sample_from_nodes_wf test_graph ch hch [2, 1] "user" user_seeds
  constructor
  · intro t ht
    obtain ⟨p, hp, hk, _, _, hedge⟩ := hwf.2 i2i_etype t ht
    have hp' : p = (u2i_etype, u2i_csr) ∨ p = (i2i_etype, i2i_csr) := by
      simpa [test_graph] using hp
    rcases hp' with rfl | rfl
    · exact absurd hk (by decide)
    · exact i2i_edge_rel _ _ _ hedge
  · intro t ht
    obtain ⟨p, hp, hk, _, _, hedge⟩ := hwf.2 rev_u2i_etype t ht
    have hp' : p = (u2i_etype, u2i_csr) ∨ p = (i2i_etype, i2i_csr) := by
      simpa [test_graph] using hp
    rcases hp' with rfl | rfl
    · exact u2i_edge_rel _ _ _ hedge
    · exact absurd hk (by decide)

/-- Witness for C2 at the take-first chooser. -/
theorem claim_C2_witness :
    ValidChooser takeChooser ∧
    ((∀ t ∈ (sample_from_nodes takeChooser test_graph [2, 1] "user" user_seeds).edgesOut
        i2i_etype,
      nthD ((sample_from_nodes takeChooser test_graph [2, 1] "user" user_seeds).nodeSeq "item")
          t.1 0
        = (nthD ((sample_from_nodes takeChooser test_graph [2, 1] "user" user_seeds).nodeSeq
            "item") t.2.1 0 + 2) % 40 ∨
      nthD ((sample_from_nodes takeChooser test_graph [2, 1] "user" user_seeds).nodeSeq "item")
          t.1 0
        = (nthD ((sample_from_nodes takeChooser test_graph [2, 1] "user" user_seeds).nodeSeq
            "item") t.2.1 0 + 3) % 40) ∧
    (∀ t ∈ (sample_from_nodes takeChooser test_graph [2, 1] "user" user_seeds).edgesOut
        rev_u2i_etype,
      nthD ((sample_from_nodes takeChooser test_graph [2, 1] "user" user_seeds).nodeSeq "item")
          t.1 0
        = (nthD ((sample_from_nodes takeChooser test_graph [2, 1] "user" user_seeds).nodeSeq
            "user") t.2.1 0 + 1) % 40 ∨
      nthD ((sample_from_nodes takeChooser test_graph [2, 1] "user" user_seeds).nodeSeq "item")
          t.1 0
        = (nthD ((sample_from_nodes takeChooser test_graph [2, 1] "user" user_seeds).nodeSeq
            "user") t.2.1 0 + 2) % 40)) :=
  ⟨takeChooser_valid, claim_C2_ring_scenario takeChooser takeChooser_valid⟩

/-- C10: Implicit reversed-edge keying — on the reference dataset's
node-based request, output edges of the heterogeneous ('user','u2i','item')
input relation are keyed by the reversed ('item','rev_u2i','user') key
(absent from the input graph dictionary, while the forward key stays empty),
with row indexing the 'item' sequence and col the 'user' sequence; the edge
GlobalID array under the reversed key reuses the forward u2i edge IDs,
listing exactly 2u and 2u+1 for each sampled user u; and homogeneous i2i
output edges sit under the original key with row/col reversed relative to
the CSR direction (col is the CSR source, row the CSR destination). -/
theorem claim_C10_reversed_keying :
    rev_u2i_etype ∉ test_graph.map Prod.fst ∧
    node_out.edgesOut u2i_etype = [] ∧
    node_out.edgesOut rev_u2i_etype ≠ [] ∧
    (∀ t ∈ node_out.edgesOut rev_u2i_etype,
      t.1 < (node_out.nodeSeq "item").length ∧
      t.2.1 < (node_out.nodeSeq "user").length) ∧
    (node_out.edgesOut rev_u2i_etype).map (fun t => t.2.2)
      = (node_out.nodeSeq "user").flatMap (fun u => [2 * u, 2 * u + 1]) ∧
    (∀ t ∈ node_out.edgesOut i2i_etype,
      i2i_csr.hasEdge (nthD (node_out.nodeSeq "item") t.2.1 0)
        (nthD (node_out.nodeSeq "item") t.1 0) t.2.2) := by
  decide

theorem binary_core {graph : HeteroGraph} (g : CSR) (negCh : Nat → Nat → Nat)
    (bound : Nat) (et : EdgeType) (rows cols : List Nat) (pos : List (Nat × Nat))
    (s1 : SamplerState) (hwf1 : StateWF graph s1)
    (hlen : rows.length = cols.length)
    (hplen : pos.length = (rows.zip cols).length)
    (hpos1 : PosAligned s1 et (rows.zip cols) pos) :
    (pos ++ (binNegLoop g negCh bound et.2.2 0 (rows.zip (pos.map Prod.fst)) s1).2).length
      = 2 * rows.length ∧
    (∀ i, i < rows.length →
      nthD ((binNegLoop g negCh bound et.2.2 0 (rows.zip (pos.map Prod.fst)) s1).1.nodeSeq et.1)
          (nthD (pos ++ (binNegLoop g negCh bound et.2.2 0 (rows.zip (pos.map Prod.fst)) s1).2)
            i (0, 0)).1 0 = nthD rows i 0 ∧
      nthD ((binNegLoop g negCh bound et.2.2 0 (rows.zip (pos.map Prod.fst)) s1).1.nodeSeq et.2.2)
          (nthD (pos ++ (binNegLoop g negCh bound et.2.2 0 (rows.zip (pos.map Prod.fst)) s1).2)
            i (0, 0)).2 0 = nthD cols i 0) ∧
    (∀ i, i < rows.length →
      nthD ((binNegLoop g negCh bound et.2.2 0 (rows.zip (pos.map Prod.fst)) s1).1.nodeSeq et.1)
          (nthD (pos ++ (binNegLoop g negCh bound et.2.2 0 (rows.zip (pos.map Prod.fst)) s1).2)
            (rows.length + i) (0, 0)).1 0 = nthD rows i 0 ∧
      ((∃ j, j < bound ∧ isTrueNeighbor g (nthD rows i 0) (negCh i j) = false) →
        isTrueNeighbor g (nthD rows i 0)
          (nthD ((binNegLoop g negCh bound et.2.2 0 (rows.zip (pos.map Prod.fst)) s1).1.nodeSeq
              et.2.2)
            (nthD (pos ++ (binNegLoop g negCh bound et.2.2 0
                (rows.zip (pos.map Prod.fst)) s1).2)
              (rows.length + i) (0, 0)).2 0) = false)) := by
  have hzlen : (rows.zip cols).length = rows.length := by
    rw [List.length_zip, ← hlen, Nat.min_self]
  have hposlen : pos.length = rows.length := hplen.trans hzlen
  have hmaplen : (pos.map Prod.fst).length = rows.length := by
    rw [List.length_map, hposlen]
  have hlstlen : (rows.zip (pos.map Prod.fst)).length = rows.length := by
    rw [List.length_zip, hmaplen, Nat.min_self]
  obtain ⟨hwf2, hm2, hblen, hbfact⟩ :=
    binNegLoop_spec g negCh bound et.2.2
      (rows.zip (pos.map Prod.fst)) 0 s1 hwf1
  have hpos2 := posAligned_mono hm2 hpos1
  have hbnlen : (binNegLoop g negCh bound et.2.2 0 (rows.zip (pos.map Prod.fst)) s1).2.length
      = rows.length := hblen.trans hlstlen
  refine ⟨?_, ?_, ?_⟩
  · rw [List.length_append, hposlen, hbnlen]
    omega
  · intro i hi
    have hiipos : i < pos.length := by omega
    have hipair : i < (rows.zip cols).length := by omega
    rw [nthD_append_left pos _ i (0, 0) hiipos]
    obtain ⟨hb1, hg1, hb2, hg2⟩ := hpos2 i hipair
    rw [nthD_zip rows cols i 0 0 hi (by omega)] at hg1 hg2
    exact ⟨hg1, hg2⟩
  · intro i hi
    have hiipos : i < pos.length := by omega
    have hipair : i < (rows.zip cols).length := by omega
    have hilst : i < (rows.zip (pos.map Prod.fst)).length := by omega
    have hshift : rows.length + i = pos.length + i := by omega
    rw [hshift, nthD_append_shift pos _ i (0, 0)]
    obtain ⟨hf1, hf2, hf3⟩ := hbfact i hilst
    have hlsti : nthD (rows.zip (pos.map Prod.fst)) i (0, 0)
        = (nthD rows i 0, nthD (pos.map Prod.fst) i 0) :=
      nthD_zip rows (pos.map Prod.fst) i 0 0 hi (by omega)
    have hmapi : nthD (pos.map Prod.fst) i 0 = (nthD pos i (0, 0)).1 :=
      nthD_map Prod.fst pos i (0, 0) 0 hiipos
    constructor
    · rw [hf1, hlsti]
      obtain ⟨hb1, hg1, _, _⟩ := hpos2 i hipair
      rw [nthD_zip rows cols i 0 0 hi (by omega)] at hg1
      show nthD ((binNegLoop g negCh bound et.2.2 0 (rows.zip
          (pos.map Prod.fst)) s1).1.nodeSeq et.1) (nthD (pos.map Prod.fst) i 0) 0
        = nthD rows i 0
      rw [hmapi]
      exact hg1
    · intro hex
      have hexc : ∃ c ∈ (List.range bound).map (negCh i),
          isTrueNeighbor g (nthD rows i 0) c = false := by
        obtain ⟨j, hj, hjf⟩ := hex
        exact ⟨negCh i j, List.mem_map.mpr ⟨j, List.mem_range.mpr hj, rfl⟩, hjf⟩
      have hpick := pickNeg_not_neighbor hexc
      rw [hf3, hlsti]
      show isTrueNeighbor g (nthD rows i 0)
          (pickNeg g (nthD rows i 0) ((List.range bound).map (negCh (0 + i)))) = false
      rw [Nat.zero_add]
      exact hpick

theorem triplet_core {graph : HeteroGraph} (g : CSR) (negCh : Nat → Nat → Nat → Nat)
    (bound amount : Nat) (et : EdgeType) (rows cols : List Nat)
    (pos : List (Nat × Nat)) (s1 : SamplerState) (hwf1 : StateWF graph s1)
    (hlen : rows.length = cols.length)
    (hplen : pos.length = (rows.zip cols).length)
    (hpos1 : PosAligned s1 et (rows.zip cols) pos) :
    (pos.map Prod.fst).length = rows.length ∧
    (pos.map Prod.snd).length = rows.length ∧
    (∀ i, i < rows.length →
      nthD ((triNegLoop g negCh bound amount et.2.2 0 rows s1).1.nodeSeq et.1)
          (nthD (pos.map Prod.fst) i 0) 0 = nthD rows i 0 ∧
      nthD ((triNegLoop g negCh bound amount et.2.2 0 rows s1).1.nodeSeq et.2.2)
          (nthD (pos.map Prod.snd) i 0) 0 = nthD cols i 0) ∧
    (triNegLoop g negCh bound amount et.2.2 0 rows s1).2.length = rows.length ∧
    (∀ row ∈ (triNegLoop g negCh bound amount et.2.2 0 rows s1).2,
      row.length = amount ∧
      ∀ x ∈ row, x < ((triNegLoop g negCh bound amount et.2.2 0 rows s1).1.nodeSeq
        et.2.2).length) := by
  have hzlen : (rows.zip cols).length = rows.length := by
    rw [List.length_zip, ← hlen, Nat.min_self]
  have hposlen : pos.length = rows.length := hplen.trans hzlen
  obtain ⟨hwf2, hm2, htlen, htrow⟩ :=
    triNegLoop_spec g negCh bound amount et.2.2 rows 0 s1 hwf1
  have hpos2 := posAligned_mono hm2 hpos1
  refine ⟨by rw [List.length_map, hposlen], by rw [List.length_map, hposlen], ?_,
    htlen, htrow⟩
  intro i hi
  have hiipos : i < pos.length := by omega
  have hipair : i < (rows.zip cols).length := by omega
  obtain ⟨hb1, hg1, hb2, hg2⟩ := hpos2 i hipair
  rw [nthD_zip rows cols i 0 0 hi (by omega)] at hg1 hg2
  rw [nthD_map Prod.fst pos i (0, 0) 0 hiipos,
    nthD_map Prod.snd pos i (0, 0) 0 hiipos]
  exact ⟨hg1, hg2⟩

/-- C3 counterexample: on the dense `cex_graph` (item 0 is user 0's only
neighbor) with a candidate stream that only draws item 0, rejection sampling
exhausts its bounded retries and the reported negative column, mapped back
through the node ID sequences, DOES satisfy the graph's true-neighbor
relation — so the negative half of the binary output contract, as stated,
is false at this input. -/
theorem claim_C3_counterexample :
    cex_out.2.edge_label_index.length = 2 ∧
    nthD (cex_out.1.nodeSeq "user") (nthD cex_out.2.edge_label_index 1 (0, 0)).1 0 = 0 ∧
    isTrueNeighbor (lookupCSR cex_graph u2i_etype)
      (nthD (cex_out.1.nodeSeq "user") (nthD cex_out.2.edge_label_index 1 (0, 0)).1 0)
      (nthD (cex_out.1.nodeSeq "item") (nthD cex_out.2.edge_label_index 1 (0, 0)).2 0)
      = true := by
  decide

/-- C3 (amended): for every binary edge-based request with matched seed
arrays, `edge_label_index` has width 2P; its first P columns, mapped through
the node ID sequences, reproduce the seed (row, col) pairs in input order;
`edge_label` is 1.0 at the first P positions and 0.0 at the last P; the last
P columns keep the seed row, and — provided the bounded rejection sampling
draws at least one non-neighbor candidate for that seed — their mapped
column never satisfies the graph's true-neighbor relation (on exhaustion the
best available candidate, possibly a true neighbor, is reported instead). -/
theorem claim_C3_binary_contract (ch : Chooser) (negCh : Nat → Nat → Nat)
    (bound : Nat) (graph : HeteroGraph) (num_neighbors : List Nat)
    (et : EdgeType) (rows cols : List Nat) (hch : ValidChooser ch)
    (hlen : rows.length = cols.length) :
    (sample_from_edges_binary ch negCh bound graph num_neighbors et rows
        cols).2.edge_label_index.length = 2 * rows.length ∧
    (sample_from_edges_binary ch negCh bound graph num_neighbors et rows
        cols).2.edge_label
      = List.replicate rows.length 1 ++ List.replicate rows.length 0 ∧
    (∀ i, i < rows.length →
      nthD ((sample_from_edges_binary ch negCh bound graph num_neighbors et rows
            cols).1.nodeSeq et.1)
          (nthD (sample_from_edges_binary ch negCh bound graph num_neighbors et rows
            cols).2.edge_label_index i (0, 0)).1 0 = nthD rows i 0 ∧
      nthD ((sample_from_edges_binary ch negCh bound graph num_neighbors et rows
            cols).1.nodeSeq et.2.2)
          (nthD (sample_from_edges_binary ch negCh bound graph num_neighbors et rows
            cols).2.edge_label_index i (0, 0)).2 0 = nthD cols i 0) ∧
    (∀ i, i < rows.length →
      nthD ((sample_from_edges_binary ch negCh bound graph num_neighbors et rows
            cols).1.nodeSeq et.1)
          (nthD (sample_from_edges_binary ch negCh bound graph num_neighbors et rows
            cols).2.edge_label_index (rows.length + i) (0, 0)).1 0 = nthD rows i 0 ∧
      ((∃ j, j < bound ∧
          isTrueNeighbor (lookupCSR graph et) (nthD rows i 0) (negCh i j) = false) →
        isTrueNeighbor (lookupCSR graph et) (nthD rows i 0)
          (nthD ((sample_from_edges_binary ch negCh bound graph num_neighbors et rows
              cols).1.nodeSeq et.2.2)
            (nthD (sample_from_edges_binary ch negCh bound graph num_neighbors et rows
              cols).2.edge_label_index (rows.length + i) (0, 0)).2 0) = false)) := by
  have hseed := addSeedPairs_spec et (rows.zip cols) initState [] (initState_wf graph)
    (fun p hp => absurd hp (by simp))
  obtain ⟨hwf0, hfr0, hm0, hplen, hpos0⟩ := hseed
  obtain ⟨hwf1, hm1⟩ := runHops_wf ch hch num_neighbors
    (addSeedPairs et (rows.zip cols) initState []).2.1
    (addSeedPairs et (rows.zip cols) initState []).1 hwf0 hfr0
  have hcore := binary_core (lookupCSR graph et) negCh bound et rows cols
    (addSeedPairs et (rows.zip cols) initState []).2.2
    (runHops ch graph num_neighbors (addSeedPairs et (rows.zip cols) initState []).2.1
      (addSeedPairs et (rows.zip cols) initState []).1)
    hwf1 hlen hplen (posAligned_mono hm1 hpos0)
  obtain ⟨hc1, hc2, hc3⟩ := hcore
  rw [sample_from_edges_binary_eli, sample_from_edges_binary_st,
    sample_from_edges_binary_el]
  exact ⟨hc1, rfl, hc2, hc3⟩

/-- Witness for the amended C3 on the reference ring dataset with two seed
pairs. -/
theorem claim_C3_witness :
    ValidChooser takeChooser ∧ ([1, 3] : List Nat).length = ([2, 5] : List Nat).length ∧
    ((sample_from_edges_binary takeChooser (fun _ _ => 0) 1 test_graph [2, 1] u2i_etype
        [1, 3] [2, 5]).2.edge_label_index.length = 2 * ([1, 3] : List Nat).length ∧
    (sample_from_edges_binary takeChooser (fun _ _ => 0) 1 test_graph [2, 1] u2i_etype
        [1, 3] [2, 5]).2.edge_label
      = List.replicate ([1, 3] : List Nat).length 1
        ++ List.replicate ([1, 3] : List Nat).length 0 ∧
    (∀ i, i < ([1, 3] : List Nat).length →
      nthD ((sample_from_edges_binary takeChooser (fun _ _ => 0) 1 test_graph [2, 1]
            u2i_etype [1, 3] [2, 5]).1.nodeSeq u2i_etype.1)
          (nthD (sample_from_edges_binary takeChooser (fun _ _ => 0) 1 test_graph [2, 1]
            u2i_etype [1, 3] [2, 5]).2.edge_label_index i (0, 0)).1 0
        = nthD [1, 3] i 0 ∧
      nthD ((sample_from_edges_binary takeChooser (fun _ _ => 0) 1 test_graph [2, 1]
            u2i_etype [1, 3] [2, 5]).1.nodeSeq u2i_etype.2.2)
          (nthD (sample_from_edges_binary takeChooser (fun _ _ => 0) 1 test_graph [2, 1]
            u2i_etype [1, 3] [2, 5]).2.edge_label_index i (0, 0)).2 0
        = nthD [2, 5] i 0) ∧
    (∀ i, i < ([1, 3] : List Nat).length →
      nthD ((sample_from_edges_binary takeChooser (fun _ _ => 0) 1 test_graph [2, 1]
            u2i_etype [1, 3] [2, 5]).1.nodeSeq u2i_etype.1)
          (nthD (sample_from_edges_binary takeChooser (fun _ _ => 0) 1 test_graph [2, 1]
            u2i_etype [1, 3] [2, 5]).2.edge_label_index
            (([1, 3] : List Nat).length + i) (0, 0)).1 0 = nthD [1, 3] i 0 ∧
      ((∃ j, j < 1 ∧ isTrueNeighbor (lookupCSR test_graph u2i_etype) (nthD [1, 3] i 0)
          ((fun _ _ => (0 : Nat)) i j) = false) →
        isTrueNeighbor (lookupCSR test_graph u2i_etype) (nthD [1, 3] i 0)
          (nthD ((sample_from_edges_binary takeChooser (fun _ _ => 0) 1 test_graph [2, 1]
              u2i_etype [1, 3] [2, 5]).1.nodeSeq u2i_etype.2.2)
            (nthD (sample_from_edges_binary takeChooser (fun _ _ => 0) 1 test_graph [2, 1]
              u2i_etype [1, 3] [2, 5]).2.edge_label_index
              (([1, 3] : List Nat).length + i) (0, 0)).2 0) = false))) :=
  ⟨takeChooser_valid, rfl,
   claim_C3_binary_contract takeChooser (fun _ _ => 0) 1 test_graph [2, 1] u2i_etype
     [1, 3] [2, 5] takeChooser_valid rfl⟩

/-- C4: Triplet-mode output contract — for every triplet edge-based request
with P matched seed pairs and parameter `amount`, `src_index` has length P
and maps through the source NodeType's sequence to the seed row IDs in input
order, `dst_pos_index` has length P and maps to the seed col IDs in input
order, and `dst_neg_index` is a LocalIndex matrix of shape (P, amount) whose
entries are in range for the destination NodeType's sequence. -/
theorem claim_C4_triplet_contract (ch : Chooser) (negCh : Nat → Nat → Nat → Nat)
    (bound : Nat) (graph : HeteroGraph) (num_neighbors : List Nat)
    (et : EdgeType) (rows cols : List Nat) (amount : Nat) (hch : ValidChooser ch)
    (hlen : rows.length = cols.length) :
    (sample_from_edges_triplet ch negCh bound graph num_neighbors et rows cols
        amount).2.src_index.length = rows.length ∧
    (sample_from_edges_triplet ch negCh bound graph num_neighbors et rows cols
        amount).2.dst_pos_index.length = rows.length ∧
    (∀ i, i < rows.length →
      nthD ((sample_from_edges_triplet ch negCh bound graph num_neighbors et rows cols
            amount).1.nodeSeq et.1)
          (nthD (sample_from_edges_triplet ch negCh bound graph num_neighbors et rows cols
            amount).2.src_index i 0) 0 = nthD rows i 0 ∧
      nthD ((sample_from_edges_triplet ch negCh bound graph num_neighbors et rows cols
            amount).1.nodeSeq et.2.2)
          (nthD (sample_from_edges_triplet ch negCh bound graph num_neighbors et rows cols
            amount).2.dst_pos_index i 0) 0 = nthD cols i 0) ∧
    (sample_from_edges_triplet ch negCh bound graph num_neighbors et rows cols
        amount).2.dst_neg_index.length = rows.length ∧
    (∀ row ∈ (sample_from_edges_triplet ch negCh bound graph num_neighbors et rows cols
        amount).2.dst_neg_index,
      row.length = amount ∧
      ∀ x ∈ row, x < ((sample_from_edges_triplet ch negCh bound graph num_neighbors et
        rows cols amount).1.nodeSeq et.2.2).length) := by
  have hseed := addSeedPairs_spec et (rows.zip cols) initState [] (initState_wf graph)
    (fun p hp => absurd hp (by simp))
  obtain ⟨hwf0, hfr0, hm0, hplen, hpos0⟩ := hseed
  obtain ⟨hwf1, hm1⟩ := runHops_wf ch hch num_neighbors
    (addSeedPairs et (rows.zip cols) initState []).2.1
    (addSeedPairs et (rows.zip cols) initState []).1 hwf0 hfr0
  have hcore := triplet_core (lookupCSR graph et) negCh bound amount et rows cols
    (addSeedPairs et (rows.zip cols) initState []).2.2
    (runHops ch graph num_neighbors (addSeedPairs et (rows.zip cols) initState []).2.1
      (addSeedPairs et (rows.zip cols) initState []).1)
    hwf1 hlen hplen (posAligned_mono hm1 hpos0)
  obtain ⟨hc1, hc2, hc3, hc4, hc5⟩ := hcore
  rw [sample_from_edges_triplet_srci, sample_from_edges_triplet_dsti,
    sample_from_edges_triplet_negi, sample_from_edges_triplet_st]
  exact ⟨hc1, hc2, hc3, hc4, hc5⟩

/-- Witness for C4 on the reference ring dataset with two seed pairs and
amount 2. -/
theorem claim_C4_witness :
    ValidChooser takeChooser ∧ ([1, 3] : List Nat).length = ([2, 5] : List Nat).length ∧
    ((sample_from_edges_triplet takeChooser (fun _ _ _ => 0) 1 test_graph [2, 1] u2i_etype
        [1, 3] [2, 5] 2).2.src_index.length = ([1, 3] : List Nat).length ∧
    (sample_from_edges_triplet takeChooser (fun _ _ _ => 0) 1 test_graph [2, 1] u2i_etype
        [1, 3] [2, 5] 2).2.dst_pos_index.length = ([1, 3] : List Nat).length ∧
    (∀ i, i < ([1, 3] : List Nat).length →
      nthD ((sample_from_edges_triplet takeChooser (fun _ _ _ => 0) 1 test_graph [2, 1]
            u2i_etype [1, 3] [2, 5] 2).1.nodeSeq u2i_etype.1)
          (nthD (sample_from_edges_triplet takeChooser (fun _ _ _ => 0) 1 test_graph [2, 1]
            u2i_etype [1, 3] [2, 5] 2).2.src_index i 0) 0 = nthD [1, 3] i 0 ∧
      nthD ((sample_from_edges_triplet takeChooser (fun _ _ _ => 0) 1 test_graph [2, 1]
            u2i_etype [1, 3] [2, 5] 2).1.nodeSeq u2i_etype.2.2)
          (nthD (sample_from_edges_triplet takeChooser (fun _ _ _ => 0) 1 test_graph [2, 1]
            u2i_etype [1, 3] [2, 5] 2).2.dst_pos_index i 0) 0 = nthD [2, 5] i 0) ∧
    (sample_from_edges_triplet takeChooser (fun _ _ _ => 0) 1 test_graph [2, 1] u2i_etype
        [1, 3] [2, 5] 2).2.dst_neg_index.length = ([1, 3] : List Nat).length ∧
    (∀ row ∈ (sample_from_edges_triplet takeChooser (fun _ _ _ => 0) 1 test_graph [2, 1]
        u2i_etype [1, 3] [2, 5] 2).2.dst_neg_index,
      row.length = 2 ∧
      ∀ x ∈ row, x < ((sample_from_edges_triplet takeChooser (fun _ _ _ => 0) 1 test_graph
        [2, 1] u2i_etype [1, 3] [2, 5] 2).1.nodeSeq u2i_etype.2.2).length)) :=
  ⟨takeChooser_valid, rfl,
   claim_C4_triplet_contract takeChooser (fun _ _ _ => 0) 1 test_graph [2, 1] u2i_etype
     [1, 3] [2, 5] 2 takeChooser_valid rfl⟩

end GLT
